import Mathlib

/-!
Verification of the picocadrs document codec (header / mesh list / footer).

The Rust sources are shallowly embedded:

* text is modelled as `List Char` (Rust `&str` / `String`);
* `f64` components are modelled as exact rationals `ℚ`, with Rust's `%`
  (remainder with the sign of the dividend) and `f64::round` (half away
  from zero) spelled out explicitly;
* `u8` is modelled as `Fin 256`, `i32` / `i64` as `Int` with explicit
  range checks or wrapping where the code casts;
* the rlua table-literal evaluator is an external collaborator (it is not
  part of this repository); its output value tree is modelled from the
  spec as `LuaValue` / `LuaTable`, and whole-document parsing is
  parameterised by an evaluation function of that shape.

Every `Except`-returning definition mirrors one fallible Rust function.
-/

namespace Picocad

/-! ## Rust-like character and string primitives -/

/-- Whitespace as recognised by Rust's `str::trim` (`char::is_whitespace`);
the Unicode set restricted to the code points that can occur in project
files (ASCII space, tab, LF, VT, FF, CR). -/
def rustIsWs (c : Char) : Bool :=
  c.toNat = 32 || c.toNat = 9 || c.toNat = 10 || c.toNat = 11 ||
  c.toNat = 12 || c.toNat = 13

/-- Rust `str::trim`: drop whitespace from both ends. -/
def rustTrim (l : List Char) : List Char :=
  ((l.dropWhile rustIsWs).reverse.dropWhile rustIsWs).reverse

/-- Split at the first occurrence of `sep` (Rust `str::split_once`). -/
def splitOnceChar (sep : Char) : List Char → Option (List Char × List Char)
  | [] => none
  | c :: rest =>
    if c = sep then some ([], rest)
    else
      match splitOnceChar sep rest with
      | none => none
      | some (a, b) => some (c :: a, b)

/-- Split at the last occurrence of `sep` (Rust `str::rsplit_once`, with the
pieces returned in document order). -/
def rsplitOnceChar (sep : Char) (l : List Char) : Option (List Char × List Char) :=
  match splitOnceChar sep l.reverse with
  | none => none
  | some (a, b) => some (b.reverse, a.reverse)

/-- Rust `str::splitn (n, sep)`: at most `n` pieces, the last piece keeps any
remaining separators. -/
def splitn (n : Nat) (sep : Char) (l : List Char) : List (List Char) :=
  match n with
  | 0 => []
  | 1 => [l]
  | Nat.succ (Nat.succ m) =>
    match splitOnceChar sep l with
    | none => [l]
    | some (a, b) => a :: splitn (Nat.succ m) sep b

/-- Plain split on one character (Rust `str::split(sep)`), used only to
state claims about field counts. -/
def splitAll (sep : Char) : List Char → List (List Char)
  | [] => [[]]
  | c :: rest =>
    if c = sep then [] :: splitAll sep rest
    else
      match splitAll sep rest with
      | [] => [[c]]
      | p :: ps => (c :: p) :: ps

/-- Rust `str::trim_end_matches (c)`: drop every trailing occurrence of `c`. -/
def rustTrimEndMatches (c : Char) (l : List Char) : List Char :=
  (l.reverse.dropWhile (fun d => d = c)).reverse

/-- Decimal digit test. -/
def isDigitChar (c : Char) : Bool := 48 ≤ c.toNat && c.toNat ≤ 57

/-- Value of a decimal digit. -/
def digitVal (c : Char) : Nat := c.toNat - 48

/-- Accumulate a digit string into a number. -/
def digitsToNat (l : List Char) : Nat :=
  l.foldl (fun acc c => acc * 10 + digitVal c) 0

/-- Rust `"…".parse::<u8>()`: optional leading `+`, then one or more decimal
digits, value at most 255 (a `-` sign is an invalid digit for unsigned
integers). -/
def parseU8 (l : List Char) : Option (Fin 256) :=
  let ds := match l with
    | '+' :: rest => rest
    | _ => l
  if ds ≠ [] ∧ ds.all isDigitChar then
    if h : digitsToNat ds < 256 then some ⟨digitsToNat ds, h⟩ else none
  else none

/-- Rust `"…".parse::<i32>()`: optional sign, one or more decimal digits,
value within the `i32` range. -/
def parseI32 (l : List Char) : Option Int :=
  match l with
  | '-' :: ds =>
    if ds ≠ [] ∧ ds.all isDigitChar then
      if digitsToNat ds ≤ 2147483648 then some (-(digitsToNat ds : Int)) else none
    else none
  | '+' :: ds =>
    if ds ≠ [] ∧ ds.all isDigitChar then
      if digitsToNat ds ≤ 2147483647 then some (digitsToNat ds : Int) else none
    else none
  | ds =>
    if ds ≠ [] ∧ ds.all isDigitChar then
      if digitsToNat ds ≤ 2147483647 then some (digitsToNat ds : Int) else none
    else none

/-! ## Exact-rational model of the `f64` operations used by the codec -/

/-- Rust `f64` truncation toward zero (used by the `%` operator). -/
def rustTrunc (q : ℚ) : Int := if 0 ≤ q then ⌊q⌋ else ⌈q⌉

/-- Rust `%` on floats: remainder with the sign of the dividend. -/
def rustRem (a b : ℚ) : ℚ := a - b * rustTrunc (a / b)

/-- Rust `f64::round`: round to the nearest integer, ties away from zero. -/
def rustRound (q : ℚ) : ℚ :=
  if 0 ≤ q then (⌊q + 1 / 2⌋ : Int) else (⌈q - 1 / 2⌉ : Int)

/-! ## Color palette (`src/assets/color.rs`) -/

/-- The 16 pico-8 base colors plus the `Invalid` sentinel. -/
inductive Color where
  | invalid
  | black
  | darkBlue
  | darkPurple
  | darkGreen
  | brown
  | darkGrey
  | lightGrey
  | white
  | red
  | orange
  | yellow
  | green
  | blue
  | lavender
  | pink
  | lightPeach
deriving DecidableEq

/-- `Color::as_i32`. -/
def colorAsI32 : Color → Int
  | .invalid => 0
  | .black => 0
  | .darkBlue => 1
  | .darkPurple => 2
  | .darkGreen => 3
  | .brown => 4
  | .darkGrey => 5
  | .lightGrey => 6
  | .white => 7
  | .red => 8
  | .orange => 9
  | .yellow => 10
  | .green => 11
  | .blue => 12
  | .lavender => 13
  | .pink => 14
  | .lightPeach => 15

/-- `impl From<i32> for Color`: 0–15 name a palette color, anything else is
`Invalid`. -/
def colorFromI32 (i : Int) : Color :=
  if i = 0 then .black
  else if i = 1 then .darkBlue
  else if i = 2 then .darkPurple
  else if i = 3 then .darkGreen
  else if i = 4 then .brown
  else if i = 5 then .darkGrey
  else if i = 6 then .lightGrey
  else if i = 7 then .white
  else if i = 8 then .red
  else if i = 9 then .orange
  else if i = 10 then .yellow
  else if i = 11 then .green
  else if i = 12 then .blue
  else if i = 13 then .lavender
  else if i = 14 then .pink
  else if i = 15 then .lightPeach
  else .invalid

/-- `Color::as_char`: the hex digit used in the footer texture. -/
def colorAsChar : Color → Char
  | .invalid => '0'
  | .black => '0'
  | .darkBlue => '1'
  | .darkPurple => '2'
  | .darkGreen => '3'
  | .brown => '4'
  | .darkGrey => '5'
  | .lightGrey => '6'
  | .white => '7'
  | .red => '8'
  | .orange => '9'
  | .yellow => 'a'
  | .green => 'b'
  | .blue => 'c'
  | .lavender => 'd'
  | .pink => 'e'
  | .lightPeach => 'f'

/-- `impl From<char> for Color`. -/
def colorFromChar (c : Char) : Color :=
  if c = '0' then .black
  else if c = '1' then .darkBlue
  else if c = '2' then .darkPurple
  else if c = '3' then .darkGreen
  else if c = '4' then .brown
  else if c = '5' then .darkGrey
  else if c = '6' then .lightGrey
  else if c = '7' then .white
  else if c = '8' then .red
  else if c = '9' then .orange
  else if c = 'a' then .yellow
  else if c = 'b' then .green
  else if c = 'c' then .blue
  else if c = 'd' then .lavender
  else if c = 'e' then .pink
  else if c = 'f' then .lightPeach
  else .invalid

/-! ## Point primitives (`src/assets/point.rs`) and rotation
(`src/assets/mesh.rs`) -/

/-- `Point2D<f64>`, components as exact rationals. -/
structure Point2 where
  u : ℚ
  v : ℚ
deriving DecidableEq

/-- `Point3D<f64>`, components as exact rationals. -/
structure Point3 where
  x : ℚ
  y : ℚ
  z : ℚ
deriving DecidableEq

/-- `Point3D::map`: apply a function to every coordinate. -/
def point3Map (f : ℚ → ℚ) (p : Point3) : Point3 :=
  ⟨f p.x, f p.y, f p.z⟩

/-- `Rotation`, the wrapper around `Point3D<f64>` used for shadow rotation. -/
structure Rotation where
  p : Point3
deriving DecidableEq

/-- One component of `Rotation::round`: three decimal digits via
`(v * 1000.0).round() / 1000.0`. -/
def round1 (v : ℚ) : ℚ := rustRound (v * 1000) / 1000

/-- `Rotation::round`. -/
def rotRound (r : Rotation) : Rotation := ⟨point3Map round1 r.p⟩

/-- One component of `Rotation::normalize`: `((v % 1.0) + 1.0) % 1.0`. -/
def normalize1 (v : ℚ) : ℚ := rustRem (rustRem v 1 + 1) 1

/-- `Rotation::normalize`. -/
def rotNormalize (r : Rotation) : Rotation := ⟨point3Map normalize1 r.p⟩

/-- `Edge` (`src/assets/edge.rs`): a pair of 3D endpoints. The Rust field
names are `start` and `end`; `end` is a reserved word here, so the second
endpoint is called `stop`. -/
structure Edge where
  start : Point3
  stop : Point3
deriving DecidableEq

/-! ## The table-literal value tree

Modelled from the spec: the table-literal evaluation service (the `rlua`
crate, an external collaborator, not part of this repository) turns a
literal string into "a generic value tree — a value is one of: number,
string, boolean, an ordered sequence of values (for the bracketed
positional part), or a set of (string-key, value) pairs (for named
fields)".  `int` and `num` mirror the two numeric variants of
`rlua::Value` (`Integer(i64)` and `Number(f64)`). -/
inductive LuaValue where
  | int (n : Int)
  | num (q : ℚ)
  | str (s : List Char)
  | boolean (b : Bool)
  | table (seq : List LuaValue) (named : List (List Char × LuaValue))

/-- A table value split into its sequence part and its named-field part. -/
structure LuaTable where
  seq : List LuaValue
  named : List (List Char × LuaValue)

/-- The table constructor applied to a `LuaTable`. -/
def LuaTable.val (t : LuaTable) : LuaValue := .table t.seq t.named

/-- `rlua` conversion of a sequence value to `usize` (`sequence_values::<usize>`):
an integer value that is not negative.  (Project files always carry vertex
indices as integer literals.) -/
def luaToUsize : LuaValue → Option Nat
  | .int n => if 0 ≤ n then some n.toNat else none
  | _ => none

/-- `rlua` conversion of a sequence value to `f64`
(`sequence_values::<f64>`): an integer converts to its exact value. -/
def luaToF64 : LuaValue → Option ℚ
  | .int n => some (mkRat n 1)
  | .num q => some q
  | _ => none

/-- `src/error.rs`: the error enumeration.  `lua` stands for any wrapped
`rlua` error; its payload is irrelevant to the claims. -/
inductive PicoErr where
  | identifier
  | headerField (s : List Char)
  | headerLength (n : Nat)
  | footerLength (n : Nat)
  | faceUVMapLength (a b : Nat)
  | tableLength (a b : Nat)
  | meshField (s : List Char)
  | meshTable
  | split (s : List Char)
  | lua
deriving DecidableEq

deriving instance DecidableEq for Except

/-! ## Face codec (`src/assets/face.rs`) -/

/-- `UVMap`: a 0-based vertex index paired with texture coordinates. -/
structure UVMap where
  vertex_index : Nat
  coords : Point2
deriving DecidableEq

/-- `Face`. -/
structure Face where
  double_sided : Bool
  no_shading : Bool
  render_priority : Bool
  no_texture : Bool
  color : Color
  uv_maps : List UVMap
deriving DecidableEq

/-- `Face::default()`. -/
def faceDefault : Face :=
  ⟨false, false, false, false, .black, []⟩

/-- The `i64 as i32` cast (`Color::from(int as i32)` in `Face::try_from`). -/
def wrap32 (n : Int) : Int := (n + 2147483648) % 4294967296 - 2147483648

/-- The leading sequence loop of `Face::try_from`: every sequence value is
converted to `usize`, 1 is subtracted (the 1-based wire index becomes
0-based), and a conversion failure aborts with the propagated error.
Note: on a wire index 0 the Rust `usize` subtraction would underflow
(panicking in a debug build); theorems about this function therefore
assume wire indices are at least 1. -/
def faceSeqIndices : List LuaValue → Except PicoErr (List Nat)
  | [] => .ok []
  | v :: rest =>
    match luaToUsize v with
    | none => .error .lua
    | some i => (faceSeqIndices rest).map (fun l => (i - 1) :: l)

/-- `map_while (|v| v.ok())` over the uv sequence values converted to `f64`:
the longest prefix of numeric values. -/
def takeNums : List LuaValue → List ℚ
  | [] => []
  | v :: rest =>
    match luaToF64 v with
    | some q => q :: takeNums rest
    | none => []

/-- `chunks_exact (2)` over the flat uv number list, as coordinate pairs. -/
def chunkPairs : List ℚ → List Point2
  | a :: b :: rest => ⟨a, b⟩ :: chunkPairs rest
  | _ => []

/-- The indexed write-back loop `uv_maps[i].coords = …` of `Face::try_from`. -/
def applyUV : List UVMap → List Point2 → List UVMap
  | m :: ms, p :: ps => { m with coords := p } :: applyUV ms ps
  | ms, [] => ms
  | [], _ :: _ => []

/-- The value interpretation of a `c` field: an integer value is cast to
`i32` and converted; anything else is the Invalid color. -/
def faceColorOf : LuaValue → Color
  | .int n => colorFromI32 (wrap32 n)
  | _ => .invalid

/-- The `uv` branch of `Face::try_from`: a table value has its flat number
prefix taken, the count checked against twice the number of uv maps, and
the coordinates zipped back in; a non-table value is ignored. -/
def faceUVApply (v : LuaValue) (acc : Face) : Except PicoErr Face :=
  match v with
  | .table uvSeq _ =>
    let uv_chunks := takeNums uvSeq
    if uv_chunks.length ≠ acc.uv_maps.length * 2 then
      .error (.faceUVMapLength acc.uv_maps.length uv_chunks.length)
    else
      .ok { acc with uv_maps := applyUV acc.uv_maps (chunkPairs uv_chunks) }
  | _ => .ok acc

/-- The named-pairs loop of `Face::try_from`, with the partially built face
as accumulator. -/
def facePairsLoop : List (List Char × LuaValue) → Face → Except PicoErr Face
  | [], acc => .ok acc
  | (k, v) :: rest, acc =>
    if k = "dbl".data then facePairsLoop rest { acc with double_sided := true }
    else if k = "noshade".data then facePairsLoop rest { acc with no_shading := true }
    else if k = "notex".data then facePairsLoop rest { acc with no_texture := true }
    else if k = "prio".data then facePairsLoop rest { acc with render_priority := true }
    else if k = "c".data then facePairsLoop rest { acc with color := faceColorOf v }
    else if k = "uv".data then
      match faceUVApply v acc with
      | .error e => .error e
      | .ok acc2 => facePairsLoop rest acc2
    else facePairsLoop rest acc

/-- `Face::try_from (Table)`. -/
def faceTryFrom (t : LuaTable) : Except PicoErr Face :=
  match faceSeqIndices t.seq with
  | .error e => .error e
  | .ok idxs =>
    facePairsLoop t.named
      { double_sided := false, no_shading := false, render_priority := false,
        no_texture := false, color := .invalid,
        uv_maps := idxs.map (fun i => ⟨i, ⟨0, 0⟩⟩) }

/-! ## Number rendering

`Display` for `f64` prints the shortest decimal string that reads back to
the same float.  On the exact-rational model this is rendered as the exact
finite decimal expansion (no trailing zeros, integers without a decimal
point), which agrees with Rust on every decimal-representable value; a
rational with no finite decimal expansion (impossible for values read from
a project file) falls back to a `num/den` rendering. -/

/-- Extract the multiplicity of `p` in `n` together with the remaining
cofactor, with explicit fuel. -/
def stripPowAux (p : Nat) : Nat → Nat → Nat × Nat
  | 0, n => (0, n)
  | fuel + 1, n =>
    if 2 ≤ p ∧ n % p = 0 ∧ n ≠ 0 then
      let r := stripPowAux p fuel (n / p)
      (r.1 + 1, r.2)
    else (0, n)

/-- Decimal rendering of a rational (model of `Display` for `f64`). -/
def numToChars (q : ℚ) : List Char :=
  let s2 := stripPowAux 2 q.den q.den
  let s5 := stripPowAux 5 s2.2 s2.2
  if s5.2 = 1 then
    let k := max s2.1 s5.1
    let m := q.num.natAbs * 10 ^ k / q.den
    let s := (Nat.repr m).data
    let s := if s.length ≤ k then List.replicate (k + 1 - s.length) '0' ++ s else s
    let core :=
      if k = 0 then s else s.take (s.length - k) ++ '.' :: s.drop (s.length - k)
    if q.num < 0 then '-' :: core else core
  else
    (if q.num < 0 then ['-'] else []) ++ (Nat.repr q.num.natAbs).data ++
      '/' :: (Nat.repr q.den).data

/-- `Display` for `i32` (used for color codes). -/
def intRepr (i : Int) : List Char :=
  if i < 0 then '-' :: (Nat.repr i.natAbs).data else (Nat.repr i.natAbs).data

/-- `Display` for `Point2D<f64>`: `u,v`. -/
def point2Chars (p : Point2) : List Char :=
  numToChars p.u ++ ',' :: numToChars p.v

/-- `Display` for `Point3D<f64>`: `x,y,z`. -/
def point3Chars (p : Point3) : List Char :=
  numToChars p.x ++ ',' :: numToChars p.y ++ ',' :: numToChars p.z

/-- `Display` for `Face`.  Literal braces are written with their character
escapes. -/
def faceChars (f : Face) : List Char :=
  let vertexIndices := (f.uv_maps.map (fun m => (Nat.repr (m.vertex_index + 1)).data ++ [','])).flatten
  let uvs := (f.uv_maps.map (fun m => point2Chars m.coords ++ [','])).flatten
  let attrs :=
    (if f.double_sided then "dbl=1, ".data else []) ++
    (if f.no_shading then "noshade=1, ".data else []) ++
    (if f.no_texture then "notex=1, ".data else []) ++
    (if f.render_priority then "prio=1, ".data else [])
  "\x7b".data ++ vertexIndices ++ " c=".data ++ intRepr (colorAsI32 f.color) ++
    ", ".data ++ attrs ++ "uv=\x7b".data ++ rustTrimEndMatches ',' uvs ++
    "\x7d \x7d".data

/-! ## Face geometry (`Face::edges`) -/

/-- The body of the `for` loop in `Face::edges`: walk the uv maps, skip
unresolvable indices, push an edge whenever the resolved vertex differs
from `last`, and track `last`; returns the pushed edges and the final
`last` value. -/
def faceEdgesLoop (vs : List Point3) : List UVMap → Point3 → List Edge × Point3
  | [], last => ([], last)
  | m :: rest, last =>
    match vs.get? m.vertex_index with
    | none => faceEdgesLoop vs rest last
    | some v =>
      let r := faceEdgesLoop vs rest v
      if v ≠ last then (⟨last, v⟩ :: r.1, r.2) else r

/-- `Face::edges`. -/
def faceEdges (f : Face) (vs : List Point3) : List Edge :=
  if f.uv_maps.length < 2 then []
  else
    match f.uv_maps with
    | [] => []
    | m0 :: _ =>
      match vs.get? m0.vertex_index with
      | none => []
      | some start =>
        let r := faceEdgesLoop vs f.uv_maps start
        r.1 ++ [⟨r.2, start⟩]

/-- The points resolved by a uv-map list against a vertex list, in order,
skipping out-of-range indices. -/
def resolvedPoints (vs : List Point3) (maps : List UVMap) : List Point3 :=
  maps.filterMap (fun m => vs.get? m.vertex_index)

/-- One edge between each consecutive pair of distinct points, starting
from `last`. -/
def consecEdges (last : Point3) : List Point3 → List Edge
  | [] => []
  | p :: rest => if p ≠ last then ⟨last, p⟩ :: consecEdges p rest else consecEdges p rest

/-- The final point of a walk starting at `last`. -/
def lastPoint (last : Point3) : List Point3 → Point3
  | [] => last
  | p :: rest => lastPoint p rest

/-- Specification form of `Face::edges`: empty when there are fewer than
2 uv maps or the first uv map's index is out of range; otherwise the
consecutive-distinct edges of the resolved point sequence followed by one
unconditional closing edge from the last resolved point back to the first.
-/
def faceEdgesSpec (f : Face) (vs : List Point3) : List Edge :=
  if f.uv_maps.length < 2 then []
  else
    match f.uv_maps with
    | [] => []
    | m0 :: _ =>
      match vs.get? m0.vertex_index with
      | none => []
      | some start =>
        consecEdges start (resolvedPoints vs f.uv_maps) ++
          [⟨lastPoint start (resolvedPoints vs f.uv_maps), start⟩]

/-! ## Mesh codec (`src/assets/mesh.rs`) -/

/-- `Mesh`. -/
structure Mesh where
  name : List Char
  position : Point3
  rotation : Rotation
  vertices : List Point3
  faces : List Face
deriving DecidableEq

/-- `Point3D::try_from (Table)`: exactly three sequence values, each
convertible to `f64`; a wrong count reports `TableLength(count, 3)` before
any conversion error. -/
def point3TryFrom (t : LuaTable) : Except PicoErr Point3 :=
  let rs := t.seq.map luaToF64
  if rs.length ≠ 3 then .error (.tableLength rs.length 3)
  else
    match rs with
    | [some a, some b, some c] => .ok ⟨a, b, c⟩
    | _ => .error .lua

/-- `sequence_values::<Table>` + `Point3D::try_from` over a vertex list. -/
def seqPoints : List LuaValue → Except PicoErr (List Point3)
  | [] => .ok []
  | v :: rest =>
    match v with
    | .table s n => do
      let p ← point3TryFrom ⟨s, n⟩
      let ps ← seqPoints rest
      return p :: ps
    | _ => .error .lua

/-- `sequence_values::<Table>` + `Face::try_from` over a face list. -/
def seqFaces : List LuaValue → Except PicoErr (List Face)
  | [] => .ok []
  | v :: rest =>
    match v with
    | .table s n => do
      let f ← faceTryFrom ⟨s, n⟩
      let fs ← seqFaces rest
      return f :: fs
    | _ => .error .lua

/-- The `name` branch of `Mesh::try_from`: only a string value is
accepted. -/
def meshNameOf (v : LuaValue) : Except PicoErr (List Char) :=
  match v with
  | .str s => .ok s
  | _ => .error (.meshField "name".data)

/-- Table extraction for a named mesh field; a non-table value is the
named wrong-shape error. -/
def meshTableOf (field : List Char) (v : LuaValue) : Except PicoErr LuaTable :=
  match v with
  | .table s n => .ok ⟨s, n⟩
  | _ => .error (.meshField field)

/-- The named-pairs loop of `Mesh::try_from`.  The wrong-shape errors for
the `v` and `f` fields name the field `rot`: this mirrors the source
(src/assets/mesh.rs lines 341 and 350) verbatim. -/
def meshPairsLoop : List (List Char × LuaValue) → Mesh → Except PicoErr Mesh
  | [], acc => .ok acc
  | (k, v) :: rest, acc =>
    if k = "name".data then
      match meshNameOf v with
      | .error e => .error e
      | .ok s => meshPairsLoop rest { acc with name := s }
    else if k = "pos".data then
      match (meshTableOf "pos".data v).bind point3TryFrom with
      | .error e => .error e
      | .ok p => meshPairsLoop rest { acc with position := p }
    else if k = "rot".data then
      match (meshTableOf "rot".data v).bind point3TryFrom with
      | .error e => .error e
      | .ok p => meshPairsLoop rest { acc with rotation := ⟨p⟩ }
    else if k = "v".data then
      match (meshTableOf "rot".data v).bind (fun t => seqPoints t.seq) with
      | .error e => .error e
      | .ok ps => meshPairsLoop rest { acc with vertices := acc.vertices ++ ps }
    else if k = "f".data then
      match (meshTableOf "rot".data v).bind (fun t => seqFaces t.seq) with
      | .error e => .error e
      | .ok fs => meshPairsLoop rest { acc with faces := acc.faces ++ fs }
    else meshPairsLoop rest acc

/-- `Mesh::try_from (Table)`. -/
def meshTryFrom (t : LuaTable) : Except PicoErr Mesh :=
  meshPairsLoop t.named ⟨[], ⟨0, 0, 0⟩, ⟨⟨0, 0, 0⟩⟩, [], []⟩

/-- `Display` for `Mesh`. -/
def meshChars (m : Mesh) : List Char :=
  let pos := "\x7b".data ++ point3Chars m.position ++ "\x7d".data
  let rot := "\x7b".data ++ point3Chars m.rotation.p ++ "\x7d".data
  let v := List.intercalate ",\n".data
    (m.vertices.map (fun p => "  \x7b".data ++ point3Chars p ++ "\x7d".data))
  let f := List.intercalate ",\n".data
    (m.faces.map (fun fc => "  ".data ++ faceChars fc))
  "\x7b\n name=\x27".data ++ m.name ++ "\x27, pos=".data ++ pos ++
    ", rot=".data ++ rot ++ ",\n v=\x7b\n".data ++ v ++
    "\n \x7d,\n f=\x7b\n".data ++ f ++ "\n \x7d\n\x7d".data

/-! ## Header codec (`src/assets/header.rs`) -/

/-- `Header`.  `zoom` is a `u8`. -/
structure Header where
  identifier : List Char
  zoom : Fin 256
  name : List Char
  background : Color
  alpha : Color
deriving DecidableEq

/-- `impl FromStr for Header`. -/
def headerFromStr (l : List Char) : Except PicoErr Header :=
  match splitn 5 ';' (rustTrim l) with
  | [f0, f1, f2, f3, f4] =>
    if f0 ≠ "picocad".data then .error .identifier
    else
      match parseU8 f2 with
      | none => .error (.headerField "zoom".data)
      | some zoom =>
        match parseI32 f3 with
        | none => .error (.headerField "background".data)
        | some bg =>
          match parseI32 f4 with
          | none => .error (.headerField "alpha".data)
          | some al => .ok ⟨f0, zoom, f1, colorFromI32 bg, colorFromI32 al⟩
  | fields => .error (.headerLength fields.length)

/-- `Display` for `Header`: the stored identifier is ignored and the
literal `picocad` is emitted. -/
def headerChars (h : Header) : List Char :=
  "picocad;".data ++ h.name ++ ";".data ++ (Nat.repr h.zoom.val).data ++
    ";".data ++ intRepr (colorAsI32 h.background) ++ ";".data ++
    intRepr (colorAsI32 h.alpha)

/-- The serialized header line after its first semicolon. -/
def headerTail (h : Header) : List Char :=
  h.name ++ ";".data ++ (Nat.repr h.zoom.val).data ++ ";".data ++
    intRepr (colorAsI32 h.background) ++ ";".data ++
    intRepr (colorAsI32 h.alpha)

/-! ## Footer codec (`src/assets/footer.rs`) -/

/-- `Footer`: the 128 × 120 pixel buffer. -/
structure Footer where
  data : List Color
deriving DecidableEq

/-- The filter-and-convert pass of `impl FromStr for Footer`: drop `' '`
and `'\n'`, convert every other character through `Color::from(char)`. -/
def footerFilter (l : List Char) : List Color :=
  l.filterMap (fun c => if c = ' ' ∨ c = '\n' then none else some (colorFromChar c))

/-- `impl FromStr for Footer`: the filtered pixel count must be exactly
15360. -/
def footerFromStr (l : List Char) : Except PicoErr Footer :=
  if (footerFilter l).length ≠ 15360 then .error (.footerLength (footerFilter l).length)
  else .ok ⟨footerFilter l⟩

/-- Fixed-width chunking (with fuel), used to render the footer. -/
def chunkListAux (w : Nat) : Nat → List Char → List (List Char)
  | 0, l => [l]
  | fuel + 1, l =>
    if l.length ≤ w then [l]
    else l.take w :: chunkListAux w fuel (l.drop w)

/-- `Display` for `Footer`.  The source inserts `'\n'` at the positions
`128 * line` for `line = 120 … 1` into the 15360-character pixel string;
for a buffer of exactly 15360 pixels this is the same as emitting 120
chunks of 128 characters, each followed by `'\n'`. -/
def footerChars (f : Footer) : List Char :=
  ((chunkListAux 128 120 (f.data.map colorAsChar)).take 120).map (· ++ ['\n']) |>.flatten

/-- A 128 x 120 all-zero hex grid with LF-terminated lines. -/
def lfGrid : List Char :=
  (List.replicate 120 (List.replicate 128 '0' ++ ['\n'])).flatten

/-- A 128 x 120 all-zero hex grid with CRLF-terminated lines. -/
def crlfGrid : List Char :=
  (List.replicate 120 (List.replicate 128 '0' ++ ['\r', '\n'])).flatten

/-! ## Document codec (`src/assets/model.rs`) -/

/-- `Model`. -/
structure Model where
  header : Header
  meshes : List Mesh
  footer : Footer
deriving DecidableEq

/-- `seperate_model`: header before the first newline, footer after the
last `%`, meshes in between. -/
def seperateModel (l : List Char) : Except PicoErr (List Char × List Char × List Char) :=
  match splitOnceChar '\n' l with
  | none => .error (.split "seperate header from meshes with \x27\\n\x27".data)
  | some (header, rest) =>
    match rsplitOnceChar '%' rest with
    | none => .error (.split "seperate meshes from footer with \x27%\x27".data)
    | some (meshes, footer) => .ok (header, meshes, footer)

/-- `sequence_values::<Table>` + `Mesh::try_from` over the decoded mesh
list. -/
def seqMeshes : List LuaValue → Except PicoErr (List Mesh)
  | [] => .ok []
  | v :: rest =>
    match v with
    | .table s n => do
      let m ← meshTryFrom ⟨s, n⟩
      let ms ← seqMeshes rest
      return m :: ms
    | _ => .error .lua

/-- `impl FromStr for Model`, parameterised by the table-literal
evaluation collaborator (`ctx.load(meshes_str).eval::<Table>()`). -/
def modelFromStr (eval : List Char → Except PicoErr LuaTable) (l : List Char) :
    Except PicoErr Model := do
  let (hs, ms, fs) ← seperateModel l
  let header ← headerFromStr hs
  let footer ← footerFromStr fs
  let t ← eval ms
  let meshes ← seqMeshes t.seq
  return ⟨header, meshes, footer⟩

/-- The mesh section of `Display` for `Model`: every mesh rendering
followed by a comma, trailing commas trimmed. -/
def meshesBody (d : Model) : List Char :=
  rustTrimEndMatches ',' ((d.meshes.map (fun m => meshChars m ++ [','])).flatten)

/-- `Display` for `Model`. -/
def modelChars (d : Model) : List Char :=
  headerChars d.header ++ "\n\x7b\n".data ++ meshesBody d ++ "\n\x7d%\n".data ++
    footerChars d.footer

/-- The mesh-list slice of a serialized model, as handed to the
table-literal evaluator by `seperate_model`. -/
def meshesSection (d : Model) : List Char :=
  "\x7b\n".data ++ meshesBody d ++ "\n\x7d".data

/-! ## Canonical value trees

The value tree that the table-literal collaborator yields for the text the
serializer emits, per its contract in the spec (one sequence entry per
positional value, one named field per `key=value` pair, in the emitted
order). -/

/-- The canonical tree of a serialized 3D point: three numbers. -/
def point3CanonTable (p : Point3) : LuaTable :=
  ⟨[.num p.x, .num p.y, .num p.z], []⟩

/-- The canonical flag fields of a serialized face, in emission order. -/
def faceFlagFields (f : Face) : List (List Char × LuaValue) :=
  (if f.double_sided then [("dbl".data, LuaValue.int 1)] else []) ++
  (if f.no_shading then [("noshade".data, LuaValue.int 1)] else []) ++
  (if f.no_texture then [("notex".data, LuaValue.int 1)] else []) ++
  (if f.render_priority then [("prio".data, LuaValue.int 1)] else [])

/-- The canonical tree of a serialized face: the 1-based vertex indices as
the sequence part, then `c`, the present flags, and the flat `uv` number
table. -/
def faceCanonTable (f : Face) : LuaTable :=
  ⟨f.uv_maps.map (fun m => .int ((m.vertex_index + 1 : Nat) : Int)),
   ("c".data, .int (colorAsI32 f.color)) ::
     (faceFlagFields f ++
      [("uv".data,
        .table ((f.uv_maps.map
          (fun m => [LuaValue.num m.coords.u, LuaValue.num m.coords.v])).flatten) [])])⟩

/-- The canonical tree of a serialized mesh: the five named fields in
emission order. -/
def meshCanonTable (m : Mesh) : LuaTable :=
  ⟨[], [("name".data, .str m.name),
        ("pos".data, (point3CanonTable m.position).val),
        ("rot".data, (point3CanonTable m.rotation.p).val),
        ("v".data, .table (m.vertices.map (fun p => (point3CanonTable p).val)) []),
        ("f".data, .table (m.faces.map (fun fc => (faceCanonTable fc).val)) [])]⟩

/-- The canonical tree of the serialized mesh list. -/
def modelCanonTable (d : Model) : LuaTable :=
  ⟨d.meshes.map (fun m => (meshCanonTable m).val), []⟩

/-- No color stored anywhere in the model is the Invalid sentinel. -/
def modelNoInvalid (d : Model) : Prop :=
  d.header.background ≠ .invalid ∧ d.header.alpha ≠ .invalid ∧
  (∀ m ∈ d.meshes, ∀ f ∈ m.faces, f.color ≠ .invalid) ∧
  (∀ c ∈ d.footer.data, c ≠ .invalid)

/-- A tiny table-literal evaluator handling exactly the two empty-list
mesh sections used by the concrete round-trip witness. -/
def evalEmptyTables (l : List Char) : Except PicoErr LuaTable :=
  if l = "\x7b\n\x7d".data ∨ l = "\x7b\n\n\x7d".data then .ok ⟨[], []⟩
  else .error .lua

/-- The concrete witness model: default header, no meshes, black footer. -/
def modelW : Model :=
  ⟨⟨"picocad".data, 16, "unnamed".data, .darkBlue, .black⟩, [],
   ⟨List.replicate 15360 Color.black⟩⟩

/-- The concrete witness document. -/
def docW : List Char :=
  "picocad;unnamed;16;1;0".data ++ '\n' :: ("\x7b\n\x7d%".data ++ '\n' :: lfGrid)

/-- A header as decoded from a background code 99: the stored background is
the Invalid sentinel. -/
def headerB : Header :=
  ⟨"picocad".data, 16, "unnamed".data, .invalid, .black⟩

/-- The model decoded from the counterexample document. -/
def modelB : Model :=
  ⟨headerB, [], ⟨List.replicate 15360 Color.black⟩⟩

/-- The counterexample document: background field `99`. -/
def docB : List Char :=
  "picocad;unnamed;16;99;0".data ++ '\n' :: ("\x7b\n\x7d%".data ++ '\n' :: lfGrid)

end Picocad

namespace Picocad

/-- C9: integers outside [0, 15] convert to the Invalid color; integers
inside [0, 15] convert to a palette color whose as_i32 code is the original
integer. -/
theorem color_fromI32_total_and_inverse (i : Int) :
    ((i < 0 ∨ 15 < i) → colorFromI32 i = Color.invalid) ∧
    (0 ≤ i → i ≤ 15 → colorAsI32 (colorFromI32 i) = i) := by
  constructor
  · intro h
    simp only [colorFromI32]
    repeat rw [if_neg (by omega)]
  · intro h0 h15
    have hcases : i = 0 ∨ i = 1 ∨ i = 2 ∨ i = 3 ∨ i = 4 ∨ i = 5 ∨ i = 6 ∨
        i = 7 ∨ i = 8 ∨ i = 9 ∨ i = 10 ∨ i = 11 ∨ i = 12 ∨ i = 13 ∨
        i = 14 ∨ i = 15 := by omega
    rcases hcases with rfl | rfl | rfl | rfl | rfl | rfl | rfl | rfl | rfl |
      rfl | rfl | rfl | rfl | rfl | rfl | rfl <;> rfl

/-- Witness for C9 at the concrete inputs 20 and 13. -/
theorem color_fromI32_total_and_inverse_witness :
    colorFromI32 20 = Color.invalid ∧ colorAsI32 (colorFromI32 13) = 13 :=
  ⟨(color_fromI32_total_and_inverse 20).1 (by decide),
   (color_fromI32_total_and_inverse 13).2 (by decide) (by decide)⟩

/-- Rust float remainder by 1 leaves a value in [0, 1) unchanged. -/
theorem rustRem_one_of_Ico (a : ℚ) (h0 : 0 ≤ a) (h1 : a < 1) :
    rustRem a 1 = a := by
  have hf : ⌊a / 1⌋ = 0 := by
    rw [div_one]
    exact Int.floor_eq_zero_iff.2 ⟨h0, h1⟩
  rw [rustRem, rustTrunc, if_pos (by rw [div_one]; exact h0), hf]
  simp

/-- Rust float remainder by 1 subtracts 1 from a value in [1, 2). -/
theorem rustRem_one_of_one_le (a : ℚ) (h0 : 1 ≤ a) (h1 : a < 2) :
    rustRem a 1 = a - 1 := by
  have hf : ⌊a / 1⌋ = 1 := by
    rw [div_one, Int.floor_eq_iff]
    constructor <;> push_cast <;> linarith
  rw [rustRem, rustTrunc, if_pos (by rw [div_one]; linarith), hf]
  push_cast
  ring

/-- Rust float remainder by 1 leaves a value in (-1, 0) unchanged (the
result keeps the sign of the dividend). -/
theorem rustRem_one_of_neg (a : ℚ) (hn : -1 < a) (h0 : a < 0) :
    rustRem a 1 = a := by
  have hc : ⌈a / 1⌉ = 0 := by
    rw [div_one]
    exact Int.ceil_eq_zero_iff.2 ⟨hn, le_of_lt h0⟩
  rw [rustRem, rustTrunc, if_neg (by rw [div_one]; exact not_le.2 h0), hc]
  simp

/-- The generic bounds of Rust float remainder by 1. -/
theorem rustRem_one_bounds (a : ℚ) : -1 < rustRem a 1 ∧ rustRem a 1 < 1 := by
  rw [rustRem, rustTrunc, div_one]
  by_cases h : 0 ≤ a
  · rw [if_pos h]
    have h1 := Int.floor_le a
    have h2 := Int.lt_floor_add_one a
    constructor <;> push_cast <;> linarith
  · rw [if_neg h]
    have h1 := Int.le_ceil a
    have h2 := Int.ceil_lt_add_one a
    constructor <;> push_cast <;> linarith

/-- Normalized rotation components always land in [0, 1). -/
theorem normalize1_mem (v : ℚ) : 0 ≤ normalize1 v ∧ normalize1 v < 1 := by
  obtain ⟨hl, hr⟩ := rustRem_one_bounds v
  rw [normalize1]
  rw [rustRem, rustTrunc, div_one]
  rw [if_pos (by linarith)]
  have h1 := Int.floor_le (rustRem v 1 + 1)
  have h2 := Int.lt_floor_add_one (rustRem v 1 + 1)
  constructor <;> push_cast <;> linarith

/-- Evaluation helper for one rounded rotation component. -/
theorem round1_eval (v : ℚ) (n : ℤ) (h0 : 0 ≤ v * 1000)
    (h : ⌊v * 1000 + 1 / 2⌋ = n) : round1 v = n / 1000 := by
  rw [round1, rustRound, if_pos h0, h]

/-- C4: rotation normalization maps every component onto [0, 1) via
((v mod 1) + 1) mod 1 (sending -0.21 to 0.79), and normalization does not
commute with 3-digit rounding: on (0.9999, 1.0, 0.0), normalize-then-round
gives (1.0, 0.0, 0.0) while round-then-normalize-then-round gives
(0.0, 0.0, 0.0). -/
theorem rotation_normalize_round_order :
    (∀ v : ℚ, 0 ≤ normalize1 v ∧ normalize1 v < 1) ∧
    normalize1 (-21 / 100 : ℚ) = 79 / 100 ∧
    rotRound (rotNormalize ⟨⟨9999 / 10000, 1, 0⟩⟩) = ⟨⟨1, 0, 0⟩⟩ ∧
    rotRound (rotNormalize (rotRound ⟨⟨9999 / 10000, 1, 0⟩⟩)) = ⟨⟨0, 0, 0⟩⟩ := by
  have hrem0 : rustRem (0 : ℚ) 1 = 0 := rustRem_one_of_Ico 0 (by norm_num) (by norm_num)
  have hrem1 : rustRem (1 : ℚ) 1 = 0 := by
    rw [rustRem_one_of_one_le 1 (by norm_num) (by norm_num)]
    norm_num
  have hn0 : normalize1 (0 : ℚ) = 0 := by
    rw [normalize1, hrem0]
    norm_num [hrem1]
  have hn1 : normalize1 (1 : ℚ) = 0 := by
    rw [normalize1, hrem1]
    norm_num [hrem1]
  have hn9 : normalize1 (9999 / 10000 : ℚ) = 9999 / 10000 := by
    rw [normalize1, rustRem_one_of_Ico (9999 / 10000) (by norm_num) (by norm_num)]
    rw [show (9999 / 10000 + 1 : ℚ) = 19999 / 10000 by norm_num]
    rw [rustRem_one_of_one_le (19999 / 10000) (by norm_num) (by norm_num)]
    norm_num
  have hr9 : round1 (9999 / 10000 : ℚ) = 1 := by
    rw [round1_eval (9999 / 10000) 1000 (by norm_num) (by norm_num)]
    norm_num
  have hr0 : round1 (0 : ℚ) = 0 := by
    rw [round1_eval 0 0 (by norm_num) (by norm_num)]
    norm_num
  have hr1 : round1 (1 : ℚ) = 1 := by
    rw [round1_eval 1 1000 (by norm_num) (by norm_num)]
    norm_num
  refine ⟨normalize1_mem, ?_, ?_, ?_⟩
  · rw [normalize1, rustRem_one_of_neg (-21 / 100) (by norm_num) (by norm_num)]
    rw [show (-21 / 100 + 1 : ℚ) = 79 / 100 by norm_num]
    exact rustRem_one_of_Ico (79 / 100) (by norm_num) (by norm_num)
  · simp only [rotNormalize, rotRound, point3Map, hn9, hn1, hn0, hr9, hr1, hr0]
  · simp only [rotNormalize, rotRound, point3Map, hn9, hn1, hn0, hr9, hr1, hr0]

end Picocad

namespace Picocad

/-- The leading sequence loop of the face decoder on a pure index list:
every wire index is converted and decremented, in order. -/
theorem faceSeqIndices_natCast (is : List Nat) :
    faceSeqIndices (is.map (fun (i : Nat) => LuaValue.int (i : Int))) =
      .ok (is.map (· - 1)) := by
  induction is with
  | nil => rfl
  | cons i rest ih =>
    rw [List.map_cons, List.map_cons]
    show (match luaToUsize (.int (i : Int)) with
      | none => (Except.error PicoErr.lua : Except PicoErr (List Nat))
      | some j => (faceSeqIndices (rest.map (fun (i : Nat) => LuaValue.int (i : Int)))).map
          (fun l => (j - 1) :: l)) = _
    rw [show luaToUsize (.int (i : Int)) = some i by
      rw [luaToUsize, if_pos (Int.natCast_nonneg i), Int.toNat_natCast]]
    rw [ih]
    rfl

/-- Stepping the face named-pairs loop over a `dbl` field. -/
theorem facePairsLoop_dbl (v : LuaValue) (rest : List (List Char × LuaValue)) (acc : Face) :
    facePairsLoop (("dbl".data, v) :: rest) acc =
      facePairsLoop rest { acc with double_sided := true } := by
  rw [facePairsLoop, if_pos rfl]

/-- Stepping the face named-pairs loop over a `noshade` field. -/
theorem facePairsLoop_noshade (v : LuaValue) (rest : List (List Char × LuaValue)) (acc : Face) :
    facePairsLoop (("noshade".data, v) :: rest) acc =
      facePairsLoop rest { acc with no_shading := true } := by
  rw [facePairsLoop, if_neg (by decide), if_pos rfl]

/-- Stepping the face named-pairs loop over a `notex` field. -/
theorem facePairsLoop_notex (v : LuaValue) (rest : List (List Char × LuaValue)) (acc : Face) :
    facePairsLoop (("notex".data, v) :: rest) acc =
      facePairsLoop rest { acc with no_texture := true } := by
  rw [facePairsLoop, if_neg (by decide), if_neg (by decide), if_pos rfl]

/-- Stepping the face named-pairs loop over a `prio` field. -/
theorem facePairsLoop_prio (v : LuaValue) (rest : List (List Char × LuaValue)) (acc : Face) :
    facePairsLoop (("prio".data, v) :: rest) acc =
      facePairsLoop rest { acc with render_priority := true } := by
  rw [facePairsLoop, if_neg (by decide), if_neg (by decide), if_neg (by decide),
    if_pos rfl]

/-- Stepping the face named-pairs loop over a `c` field. -/
theorem facePairsLoop_c (v : LuaValue) (rest : List (List Char × LuaValue)) (acc : Face) :
    facePairsLoop (("c".data, v) :: rest) acc =
      facePairsLoop rest { acc with color := faceColorOf v } := by
  rw [facePairsLoop, if_neg (by decide), if_neg (by decide), if_neg (by decide),
    if_neg (by decide), if_pos rfl]

/-- Stepping the face named-pairs loop over a `uv` table field whose flat
number count does not match. -/
theorem facePairsLoop_uv_mismatch (uvSeq : List LuaValue)
    (uvNamed rest : List (List Char × LuaValue)) (acc : Face)
    (h : (takeNums uvSeq).length ≠ acc.uv_maps.length * 2) :
    facePairsLoop (("uv".data, .table uvSeq uvNamed) :: rest) acc =
      .error (.faceUVMapLength acc.uv_maps.length (takeNums uvSeq).length) := by
  rw [facePairsLoop, if_neg (by decide), if_neg (by decide), if_neg (by decide),
    if_neg (by decide), if_neg (by decide), if_pos rfl]
  rw [show faceUVApply (.table uvSeq uvNamed) acc =
    .error (.faceUVMapLength acc.uv_maps.length (takeNums uvSeq).length) by
      rw [faceUVApply]
      exact if_pos h]

/-- Stepping the face named-pairs loop over a `uv` table field whose flat
number count matches. -/
theorem facePairsLoop_uv_match (uvSeq : List LuaValue)
    (uvNamed rest : List (List Char × LuaValue)) (acc : Face)
    (h : (takeNums uvSeq).length = acc.uv_maps.length * 2) :
    facePairsLoop (("uv".data, .table uvSeq uvNamed) :: rest) acc =
      facePairsLoop rest
        { acc with uv_maps := applyUV acc.uv_maps (chunkPairs (takeNums uvSeq)) } := by
  rw [facePairsLoop, if_neg (by decide), if_neg (by decide), if_neg (by decide),
    if_neg (by decide), if_neg (by decide), if_pos rfl]
  rw [show faceUVApply (.table uvSeq uvNamed) acc =
    .ok { acc with uv_maps := applyUV acc.uv_maps (chunkPairs (takeNums uvSeq)) } by
      rw [faceUVApply]
      exact if_neg (by simp [h])]

/-- `map_while` over a list of plain numbers keeps all of them. -/
theorem takeNums_num (qs : List ℚ) :
    takeNums (qs.map LuaValue.num) = qs := by
  induction qs with
  | nil => rfl
  | cons q rest ih => simp only [List.map_cons, takeNums, luaToF64, ih]

/-- C2: the face literal with wire indices 4,3,2,1 decodes to UVMap entries
with 0-based vertex indices [3,2,1,0] in order and re-serializes with the
1-based indices 4,3,2,1 in the same order; in general the decoder
subtracts 1 from every wire vertex index, preserving order. -/
theorem face_uv_index_conversion :
    (faceTryFrom ⟨[.int 4, .int 3, .int 2, .int 1],
        [("c".data, .int 10),
         ("uv".data, .table [.int 0, .int 0, .int 1, .int 0, .int 1,
            .int 1, .int 0, .int 1] [])]⟩ =
      .ok ⟨false, false, false, false, .yellow,
        [⟨3, ⟨0, 0⟩⟩, ⟨2, ⟨1, 0⟩⟩, ⟨1, ⟨1, 1⟩⟩, ⟨0, ⟨0, 1⟩⟩]⟩) ∧
    (faceChars ⟨false, false, false, false, .yellow,
        [⟨3, ⟨0, 0⟩⟩, ⟨2, ⟨1, 0⟩⟩, ⟨1, ⟨1, 1⟩⟩, ⟨0, ⟨0, 1⟩⟩]⟩ =
      "\x7b4,3,2,1, c=10, uv=\x7b0,0,1,0,1,1,0,1\x7d \x7d".data) ∧
    (∀ is : List Nat, (∀ i ∈ is, 1 ≤ i) →
      faceTryFrom ⟨is.map (fun (i : Nat) => LuaValue.int (i : Int)), []⟩ =
        .ok ⟨false, false, false, false, .invalid,
          is.map (fun i => ⟨i - 1, ⟨0, 0⟩⟩)⟩) := by
  refine ⟨by decide, by decide, ?_⟩
  intro is _
  simp only [faceTryFrom, faceSeqIndices_natCast, facePairsLoop, List.map_map]
  rfl

/-- Witness for C2 at the wire index list [2, 1]. -/
theorem face_uv_index_conversion_witness :
    faceTryFrom ⟨[LuaValue.int 2, LuaValue.int 1], []⟩ =
      .ok ⟨false, false, false, false, .invalid, [⟨1, ⟨0, 0⟩⟩, ⟨0, ⟨0, 0⟩⟩]⟩ :=
  face_uv_index_conversion.2.2 [2, 1] (by decide)

/-- C3: a uv table whose flat number count differs from twice the number of
leading vertex indices aborts face decoding with an error carrying both
counts; in particular 3 indices with 4 uv numbers report (3, 4). -/
theorem face_uv_length_mismatch :
    (faceTryFrom ⟨[.int 1, .int 2, .int 3],
        [("c".data, .int 0),
         ("uv".data, .table [.int 0, .int 0, .int 1, .int 1] [])]⟩ =
      .error (.faceUVMapLength 3 4)) ∧
    (∀ (is : List Nat) (c : Int) (qs : List ℚ),
      qs.length ≠ is.length * 2 →
      faceTryFrom ⟨is.map (fun (i : Nat) => LuaValue.int (i : Int)),
          [("c".data, .int c), ("uv".data, .table (qs.map .num) [])]⟩ =
        .error (.faceUVMapLength is.length qs.length)) := by
  refine ⟨by decide, ?_⟩
  intro is c qs hne
  have hlen : ((is.map (· - 1)).map (fun i => (⟨i, ⟨0, 0⟩⟩ : UVMap))).length = is.length := by
    simp
  rw [faceTryFrom, faceSeqIndices_natCast]
  show facePairsLoop
      [("c".data, .int c), ("uv".data, .table (qs.map .num) [])]
      ⟨false, false, false, false, .invalid,
        (is.map (· - 1)).map (fun i => ⟨i, ⟨0, 0⟩⟩)⟩ =
    .error (.faceUVMapLength is.length qs.length)
  rw [facePairsLoop_c, facePairsLoop_uv_mismatch]
  · simp [takeNums_num, hlen]
  · simpa [takeNums_num, hlen] using hne

/-- Witness for C3 at 1 vertex index and 3 uv numbers. -/
theorem face_uv_length_mismatch_witness :
    faceTryFrom ⟨[LuaValue.int 1],
        [("c".data, LuaValue.int 0),
         ("uv".data, LuaValue.table ([(0 : ℚ), 1, 2].map .num) [])]⟩ =
      .error (.faceUVMapLength 1 3) :=
  face_uv_length_mismatch.2 [1] 0 [0, 1, 2] (by decide)

/-- C6 (code bug): a present `v` or `f` mesh field of the wrong literal
shape is reported as a mesh-field error naming `rot`, not the offending
field; the correctly named cases `name`, `pos`, `rot` are shown for
contrast. -/
theorem mesh_field_error_names :
    meshTryFrom ⟨[], [("v".data, .int 1)]⟩ = .error (.meshField "rot".data) ∧
    meshTryFrom ⟨[], [("f".data, .int 1)]⟩ = .error (.meshField "rot".data) ∧
    meshTryFrom ⟨[], [("name".data, .int 1)]⟩ = .error (.meshField "name".data) ∧
    meshTryFrom ⟨[], [("pos".data, .int 1)]⟩ = .error (.meshField "pos".data) ∧
    meshTryFrom ⟨[], [("rot".data, .int 1)]⟩ = .error (.meshField "rot".data) ∧
    "rot".data ≠ "v".data ∧ "rot".data ≠ "f".data := by
  decide

/-- The edge loop of `Face::edges` computes the consecutive-distinct edges
and the final point of the resolved point sequence. -/
theorem faceEdgesLoop_spec (vs : List Point3) (maps : List UVMap) (last : Point3) :
    faceEdgesLoop vs maps last =
      (consecEdges last (resolvedPoints vs maps),
       lastPoint last (resolvedPoints vs maps)) := by
  induction maps generalizing last with
  | nil => rfl
  | cons m rest ih =>
    rw [faceEdgesLoop]
    cases hs : vs.get? m.vertex_index with
    | none =>
      simp only [resolvedPoints, List.filterMap_cons, hs]
      exact ih last
    | some v =>
      simp only [resolvedPoints, List.filterMap_cons, hs, consecEdges, lastPoint]
      rw [ih v]
      by_cases hv : v ≠ last
      · rw [if_pos hv, if_pos hv]
        simp [resolvedPoints]
      · rw [if_neg hv, if_neg hv]
        simp [resolvedPoints]

/-- C5 (amended): `Face::edges` equals its specification form: it returns
the empty list when there are fewer than 2 UVMap entries or when the first
entry's vertex index is out of range; otherwise it walks the entries,
silently skipping out-of-range indices, emits one edge between each
consecutive pair of distinct resolved points, and always appends one
closing edge from the last resolved point back to the first resolved
point, even when that closing edge is degenerate. -/
theorem face_edges_eq_spec (f : Face) (vs : List Point3) :
    faceEdges f vs = faceEdgesSpec f vs := by
  rw [faceEdges, faceEdgesSpec]
  by_cases hl : f.uv_maps.length < 2
  · rw [if_pos hl, if_pos hl]
  · rw [if_neg hl, if_neg hl]
    cases hm : f.uv_maps with
    | nil => rfl
    | cons m0 rest =>
      cases hs : vs.get? m0.vertex_index with
      | none => simp only [hs]
      | some start => simp only [hs, faceEdgesLoop_spec]

/-- C5 (counterexample to the claim as stated): a face with two UVMap
entries of which only the first resolves yields one degenerate closing
edge, not the empty list. -/
theorem face_edges_single_resolvable_not_empty :
    (resolvedPoints [⟨0, 0, 0⟩]
        (Face.uv_maps ⟨false, false, false, false, .black,
          [⟨0, ⟨0, 0⟩⟩, ⟨5, ⟨0, 0⟩⟩]⟩)).length = 1 ∧
    faceEdges ⟨false, false, false, false, .black,
        [⟨0, ⟨0, 0⟩⟩, ⟨5, ⟨0, 0⟩⟩]⟩ [⟨0, 0, 0⟩] =
      [⟨⟨0, 0, 0⟩, ⟨0, 0, 0⟩⟩] ∧
    faceEdges ⟨false, false, false, false, .black,
        [⟨0, ⟨0, 0⟩⟩, ⟨5, ⟨0, 0⟩⟩]⟩ [⟨0, 0, 0⟩] ≠ [] := by
  refine ⟨by decide, by decide, by decide⟩

/-! ### String-splitting lemmas -/

/-- `splitAll` unfolds through `splitOnceChar`. -/
theorem splitAll_eq_splitOnce (sep : Char) (l : List Char) :
    splitAll sep l =
      match splitOnceChar sep l with
      | none => [l]
      | some (a, b) => a :: splitAll sep b := by
  induction l with
  | nil => rfl
  | cons c rest ih =>
    by_cases hc : c = sep
    · subst hc
      rw [splitAll, if_pos rfl, splitOnceChar, if_pos rfl]
    · rw [splitAll, if_neg hc, splitOnceChar, if_neg hc, ih]
      cases hso : splitOnceChar sep rest with
      | none => simp [hso]
      | some ab => cases ab with | mk a b => simp [hso]

/-- `splitAll` never returns the empty list. -/
theorem splitAll_ne_nil (sep : Char) (l : List Char) : splitAll sep l ≠ [] := by
  rw [splitAll_eq_splitOnce]
  cases hso : splitOnceChar sep l with
  | none => simp
  | some ab => cases ab with | mk a b => simp

/-- The number of pieces of a plain split is the separator count plus one. -/
theorem splitAll_length (sep : Char) (l : List Char) :
    (splitAll sep l).length = l.count sep + 1 := by
  induction l with
  | nil => rfl
  | cons c rest ih =>
    by_cases hc : c = sep
    · subst hc
      rw [splitAll, if_pos rfl, List.length_cons, ih, List.count_cons_self]
    · rw [splitAll, if_neg hc]
      have hcount : (c :: rest).count sep = rest.count sep := by
        rw [List.count_cons_of_ne]
        exact fun hyp => hc hyp.symm
      cases hsa : splitAll sep rest with
      | nil => exact absurd hsa (splitAll_ne_nil sep rest)
      | cons p ps =>
        rw [hcount, ← ih, hsa]
        simp

/-- `splitn` returns at most `n` pieces. -/
theorem splitn_length_le (n : Nat) (sep : Char) (l : List Char) :
    (splitn n sep l).length ≤ n := by
  induction n generalizing l with
  | zero => simp [splitn]
  | succ m ih =>
    cases m with
    | zero => simp [splitn]
    | succ k =>
      rw [splitn]
      cases hso : splitOnceChar sep l with
      | none => simp
      | some ab =>
        cases ab with
        | mk a b =>
          have := ih b
          simpa using this

/-- The `splitn` piece count is the plain piece count capped at `n`. -/
theorem splitn_length_min (n : Nat) (sep : Char) (l : List Char) (h : 1 ≤ n) :
    (splitn n sep l).length = min n (splitAll sep l).length := by
  induction n generalizing l with
  | zero => omega
  | succ m ih =>
    cases m with
    | zero =>
      have h1 : 1 ≤ (splitAll sep l).length := by
        cases hsa : splitAll sep l with
        | nil => exact absurd hsa (splitAll_ne_nil sep l)
        | cons p ps => simp
      rw [splitn]
      simp
      omega
    | succ k =>
      rw [splitn, splitAll_eq_splitOnce]
      cases hso : splitOnceChar sep l with
      | none => simp
      | some ab =>
        cases ab with
        | mk a b =>
          have h1 : 1 ≤ (splitAll sep b).length := by
            cases hsa : splitAll sep b with
            | nil => exact absurd hsa (splitAll_ne_nil sep b)
            | cons p ps => simp
          have := ih b (by omega)
          simp only [List.length_cons, this]
          omega

/-- Splitting once at an explicit separator, when the head piece is
separator-free. -/
theorem splitOnceChar_append (sep : Char) (a rest : List Char) (ha : sep ∉ a) :
    splitOnceChar sep (a ++ sep :: rest) = some (a, rest) := by
  induction a with
  | nil => simp [splitOnceChar]
  | cons c cs ih =>
    have hc : c ≠ sep := fun hyp => ha (hyp ▸ List.mem_cons_self c cs)
    rw [List.cons_append, splitOnceChar, if_neg (fun hyp => hc hyp),
      ih (fun hyp => ha (List.mem_cons_of_mem c hyp))]

/-- Peeling the first field off a bounded split. -/
theorem splitn_cons (m : Nat) (sep : Char) (a rest : List Char) (ha : sep ∉ a) :
    splitn (m + 2) sep (a ++ sep :: rest) = a :: splitn (m + 1) sep rest := by
  rw [splitn, splitOnceChar_append sep a rest ha]

/-- The head piece returned by `splitOnceChar` is separator-free. -/
theorem splitOnceChar_no_sep (sep : Char) (l a b : List Char)
    (hso : splitOnceChar sep l = some (a, b)) : sep ∉ a := by
  induction l generalizing a b with
  | nil => simp [splitOnceChar] at hso
  | cons c rest ih =>
    rw [splitOnceChar] at hso
    by_cases hc : c = sep
    · rw [if_pos hc] at hso
      obtain ⟨rfl, rfl⟩ : [] = a ∧ rest = b := by
        constructor <;> [exact congrArg Prod.fst (Option.some.inj hso);
          exact congrArg Prod.snd (Option.some.inj hso)]
      simp
    · rw [if_neg hc] at hso
      cases hrec : splitOnceChar sep rest with
      | none => rw [hrec] at hso; exact absurd hso (by simp)
      | some ab =>
        cases ab with
        | mk a2 b2 =>
          rw [hrec] at hso
          obtain ⟨rfl, rfl⟩ : c :: a2 = a ∧ b2 = b := by
            constructor <;> [exact congrArg Prod.fst (Option.some.inj hso);
              exact congrArg Prod.snd (Option.some.inj hso)]
          intro hmem
          rcases List.mem_cons.1 hmem with hyp | hyp
          · exact hc hyp.symm
          · exact ih a2 b2 hrec hyp

/-- A bounded split with a positive bound is never empty. -/
theorem splitn_ne_nil (n : Nat) (sep : Char) (l : List Char) (h : 1 ≤ n) :
    splitn n sep l ≠ [] := by
  cases n with
  | zero => omega
  | succ m =>
    cases m with
    | zero => simp [splitn]
    | succ k =>
      rw [splitn]
      cases splitOnceChar sep l with
      | none => simp
      | some ab => cases ab with | mk a b => simp

/-- Every piece of a bounded split except the final one is
separator-free. -/
theorem splitn_dropLast_no_sep (n : Nat) (sep : Char) (l : List Char) :
    ∀ p ∈ (splitn n sep l).dropLast, sep ∉ p := by
  induction n generalizing l with
  | zero => simp [splitn]
  | succ m ih =>
    cases m with
    | zero => simp [splitn]
    | succ k =>
      cases hso : splitOnceChar sep l with
      | none => rw [splitn, hso]; simp
      | some ab =>
        cases ab with
        | mk a b =>
          rw [splitn, hso]
          intro p hp
          have hsplit : splitn (k + 1) sep b ≠ [] := splitn_ne_nil _ sep b (by omega)
          rw [List.dropLast_cons_of_ne_nil hsplit] at hp
          rcases List.mem_cons.1 hp with rfl | hp2
          · exact splitOnceChar_no_sep sep l p b hso
          · exact ih b p hp2

/-- C7 (amended): header parsing splits the trimmed line into at most 5
fields (`splitn` with limit 5, so the 5th field absorbs any further
separators); the field-count error is raised exactly when the split has
fewer than 5 fields, the identifier error when a 5-field split does not
start with `picocad`, and a line with more than 5 plain fields never
raises the field-count error. -/
theorem header_field_count_behavior (l : List Char) :
    ((splitn 5 ';' (rustTrim l)).length ≤ 5) ∧
    ((splitn 5 ';' (rustTrim l)).length = min 5 (splitAll ';' (rustTrim l)).length) ∧
    ((splitn 5 ';' (rustTrim l)).length ≠ 5 →
      headerFromStr l = .error (.headerLength (splitn 5 ';' (rustTrim l)).length)) ∧
    (∀ f0 f1 f2 f3 f4, splitn 5 ';' (rustTrim l) = [f0, f1, f2, f3, f4] →
      f0 ≠ "picocad".data → headerFromStr l = .error .identifier) ∧
    (5 < (splitAll ';' (rustTrim l)).length →
      ∀ n, headerFromStr l ≠ .error (.headerLength n)) := by
  refine ⟨splitn_length_le 5 ';' _, splitn_length_min 5 ';' _ (by omega), ?_, ?_, ?_⟩
  · intro hne
    rcases hsp : splitn 5 ';' (rustTrim l) with
      _ | ⟨f0, _ | ⟨f1, _ | ⟨f2, _ | ⟨f3, _ | ⟨f4, rest⟩⟩⟩⟩⟩
    · rw [headerFromStr, hsp]
    · rw [headerFromStr, hsp]
    · rw [headerFromStr, hsp]
    · rw [headerFromStr, hsp]
    · rw [headerFromStr, hsp]
    · cases rest with
      | nil => exact absurd (by rw [hsp]; rfl) hne
      | cons r rs =>
        have hle := splitn_length_le 5 ';' (rustTrim l)
        rw [hsp] at hle
        simp at hle
  · intro f0 f1 f2 f3 f4 hsp hne
    simp only [headerFromStr, hsp]
    rw [if_pos hne]
  · intro hgt n
    have hlen : (splitn 5 ';' (rustTrim l)).length = 5 := by
      rw [splitn_length_min 5 ';' _ (by omega)]
      omega
    rcases hsp : splitn 5 ';' (rustTrim l) with
      _ | ⟨f0, _ | ⟨f1, _ | ⟨f2, _ | ⟨f3, _ | ⟨f4, rest⟩⟩⟩⟩⟩ <;>
      rw [hsp] at hlen <;> simp at hlen
    subst hlen
    simp only [headerFromStr, hsp]
    by_cases hid : f0 ≠ "picocad".data
    · rw [if_pos hid]
      simp
    · rw [if_neg hid]
      cases hz : parseU8 f2 with
      | none => simp [hz]
      | some z =>
        cases hb : parseI32 f3 with
        | none => simp [hz, hb]
        | some bg =>
          cases ha : parseI32 f4 with
          | none => simp [hz, hb, ha]
          | some al => simp [hz, hb, ha]

/-- Witness for C7 at a 2-field line. -/
theorem header_field_count_behavior_witness :
    headerFromStr "a;b".data = .error (.headerLength 2) :=
  (header_field_count_behavior "a;b".data).2.2.1 (by decide)

/-- C7 (counterexample to the claim as stated): a line with 6 plain
semicolon-separated fields does not fail with the field-count error but
with a header-field error on the alpha field. -/
theorem header_six_fields_not_length_error :
    (splitAll ';' (rustTrim "picocad;a;16;1;0;9".data)).length = 6 ∧
    headerFromStr "picocad;a;16;1;0;9".data = .error (.headerField "alpha".data) ∧
    headerFromStr "picocad;a;16;1;0;9".data ≠ .error (.headerLength 6) := by
  refine ⟨by decide, by decide, by decide⟩

/-- Rust trim is the identity on an append whose first character and whose
final component's last character are not whitespace. -/
theorem rustTrim_eq_self_append (A B : List Char)
    (hA : ∃ d tl, A = d :: tl ∧ rustIsWs d = false)
    (hB : ∃ c tl, B.reverse = c :: tl ∧ rustIsWs c = false) :
    rustTrim (A ++ B) = A ++ B := by
  obtain ⟨d, tlA, rfl, hd⟩ := hA
  obtain ⟨c, tlB, hBrev, hc⟩ := hB
  have h1 : ((d :: tlA) ++ B).dropWhile rustIsWs = (d :: tlA) ++ B := by
    rw [List.cons_append, List.dropWhile_cons, hd]
    simp
  have h2 : ((d :: tlA) ++ B).reverse.dropWhile rustIsWs = ((d :: tlA) ++ B).reverse := by
    rw [List.reverse_append, hBrev, List.cons_append, List.dropWhile_cons, hc]
    simp
  rw [rustTrim, h1, h2, List.reverse_reverse]

/-- The rendered color code of any palette color starts, reversed, with a
digit. -/
theorem intRepr_color_rev (c : Color) :
    ∃ d tl, (intRepr (colorAsI32 c)).reverse = d :: tl ∧ rustIsWs d = false := by
  cases c <;> exact ⟨_, _, rfl, by decide⟩

/-- The serialized header line is not affected by Rust trim. -/
theorem rustTrim_headerChars (h : Header) :
    rustTrim (headerChars h) = headerChars h := by
  have hsplit : headerChars h =
      ("picocad;".data ++ h.name ++ ";".data ++ (Nat.repr h.zoom.val).data ++
        ";".data ++ intRepr (colorAsI32 h.background) ++ ";".data) ++
        intRepr (colorAsI32 h.alpha) := by
    rw [headerChars]
  rw [hsplit]
  apply rustTrim_eq_self_append
  · exact ⟨'p', _, rfl, by decide⟩
  · exact intRepr_color_rev h.alpha

/-- The serialized header line is its magic prefix, one semicolon and its
tail. -/
theorem headerChars_decomp (h : Header) :
    headerChars h = "picocad".data ++ ';' :: headerTail h := rfl

/-- The serialized header line splits into exactly five fields, the first
of which is the literal `picocad`. -/
theorem headerChars_splitn (h : Header) :
    splitn 5 ';' (rustTrim (headerChars h)) =
      "picocad".data :: splitn 4 ';' (headerTail h) := by
  rw [rustTrim_headerChars, headerChars_decomp]
  exact splitn_cons 3 ';' _ _ (by decide)

/-- The tail of the serialized header line holds at least three
semicolons. -/
theorem headerChars_tail_count (h : Header) :
    3 ≤ (headerTail h).count ';' := by
  rw [headerTail]
  simp [List.count_append, List.count_cons]
  omega

/-- C10: header serialization emits the literal `picocad` as the first
field regardless of the stored identifier (two headers differing only in
the identifier serialize identically), and the serialized line always
splits into 5 fields whose first field is `picocad`, so re-parsing never
fails the identifier check (nor the field-count check). -/
theorem header_display_ignores_identifier :
    (∀ (id1 id2 name : List Char) (zoom : Fin 256) (bg al : Color),
      headerChars ⟨id1, zoom, name, bg, al⟩ = headerChars ⟨id2, zoom, name, bg, al⟩) ∧
    (∀ h : Header,
      (splitn 5 ';' (rustTrim (headerChars h))).head? = some "picocad".data ∧
      (splitn 5 ';' (rustTrim (headerChars h))).length = 5 ∧
      headerFromStr (headerChars h) ≠ .error .identifier ∧
      ∀ n, headerFromStr (headerChars h) ≠ .error (.headerLength n)) := by
  refine ⟨fun id1 id2 name zoom bg al => rfl, fun h => ?_⟩
  have hsp := headerChars_splitn h
  have htcount := headerChars_tail_count h
  have hlen4 : (splitn 4 ';' (headerTail h)).length = 4 := by
    rw [splitn_length_min 4 ';' (headerTail h) (by omega), splitAll_length]
    omega
  have hlen5 : (splitn 5 ';' (rustTrim (headerChars h))).length = 5 := by
    rw [hsp]
    simp [hlen4]
  refine ⟨by rw [hsp]; rfl, hlen5, ?_⟩
  rcases hsp4 : splitn 4 ';' (headerTail h) with
    _ | ⟨t1, _ | ⟨t2, _ | ⟨t3, _ | ⟨t4, rest⟩⟩⟩⟩ <;>
    rw [hsp4] at hlen4 <;> simp at hlen4
  subst hlen4
  have hfields : splitn 5 ';' (rustTrim (headerChars h)) =
      ["picocad".data, t1, t2, t3, t4] := by rw [hsp, hsp4]
  constructor
  · simp only [headerFromStr, hfields]
    rw [if_neg (by simp)]
    cases hz : parseU8 t2 with
    | none => simp [hz]
    | some z =>
      cases hb : parseI32 t3 with
      | none => simp [hz, hb]
      | some bg =>
        cases ha : parseI32 t4 with
        | none => simp [hz, hb, ha]
        | some al => simp [hz, hb, ha]
  · intro n
    simp only [headerFromStr, hfields]
    rw [if_neg (by simp)]
    cases hz : parseU8 t2 with
    | none => simp [hz]
    | some z =>
      cases hb : parseI32 t3 with
      | none => simp [hz, hb]
      | some bg =>
        cases ha : parseI32 t4 with
        | none => simp [hz, hb, ha]
        | some al => simp [hz, hb, ha]

/-- The footer filter distributes over append. -/
theorem footerFilter_append (a b : List Char) :
    footerFilter (a ++ b) = footerFilter a ++ footerFilter b := by
  rw [footerFilter, footerFilter, footerFilter, List.filterMap_append]

/-- The footer filter maps a run of zeros to a run of black pixels. -/
theorem footerFilter_zeros (k : Nat) :
    footerFilter (List.replicate k '0') = List.replicate k Color.black := by
  induction k with
  | zero => rfl
  | succ n ih =>
    rw [List.replicate_succ, List.replicate_succ, footerFilter,
      List.filterMap_cons, if_neg (by decide)]
    rw [footerFilter] at ih
    rw [ih]
    rfl

/-- The footer filter over repeated chunks. -/
theorem footerFilter_flatten_replicate (n : Nat) (chunk : List Char) :
    footerFilter ((List.replicate n chunk).flatten) =
      (List.replicate n (footerFilter chunk)).flatten := by
  induction n with
  | zero => rfl
  | succ m ih =>
    rw [List.replicate_succ, List.replicate_succ, List.flatten_cons,
      List.flatten_cons, footerFilter_append, ih]

/-- Flattening a repeated constant run. -/
theorem flatten_replicate_replicate (n k : Nat) (x : Color) :
    (List.replicate n (List.replicate k x)).flatten = List.replicate (n * k) x := by
  induction n with
  | zero => simp
  | succ m ih =>
    rw [List.replicate_succ, List.flatten_cons, ih, Nat.succ_mul, Nat.add_comm,
      List.replicate_add]

/-- The filtered LF grid is 15360 black pixels. -/
theorem footerFilter_lfGrid :
    footerFilter lfGrid = List.replicate 15360 Color.black := by
  rw [lfGrid, footerFilter_flatten_replicate]
  rw [show footerFilter (List.replicate 128 '0' ++ ['\n']) =
      List.replicate 128 Color.black by
    rw [footerFilter_append, footerFilter_zeros]
    simp [footerFilter]]
  rw [flatten_replicate_replicate]

/-- The filtered CRLF grid is 120 chunks of 129 pixels: the CR in every
line survives the filter as an Invalid pixel. -/
theorem footerFilter_crlfGrid :
    footerFilter crlfGrid =
      (List.replicate 120 (List.replicate 128 Color.black ++ [Color.invalid])).flatten := by
  rw [crlfGrid, footerFilter_flatten_replicate]
  rw [show footerFilter (List.replicate 128 '0' ++ ['\r', '\n']) =
      List.replicate 128 Color.black ++ [Color.invalid] by
    rw [footerFilter_append, footerFilter_zeros]
    rfl]

/-- The length of a flattened repeated chunk. -/
theorem length_flatten_replicate (n : Nat) (l : List Color) :
    ((List.replicate n l).flatten).length = n * l.length := by
  induction n with
  | zero => simp
  | succ m ih =>
    rw [List.replicate_succ, List.flatten_cons, List.length_append, ih,
      Nat.succ_mul, Nat.add_comm]

/-- The filtered CRLF grid counts 15480 pixels. -/
theorem footerFilter_crlfGrid_length : (footerFilter crlfGrid).length = 15480 := by
  rw [footerFilter_crlfGrid, length_flatten_replicate, List.length_append,
    List.length_replicate]
  rfl

/-- C8 (amended): footer parsing drops only spaces and LF characters, maps
every other character (including CR) through the char-to-color conversion,
and succeeds exactly when 15360 characters remain; an LF-terminated
all-zero 128 x 120 grid parses to the all-black pixel buffer. -/
theorem footer_parse_behavior :
    (∀ l : List Char, (∃ f, footerFromStr l = .ok f) ↔ (footerFilter l).length = 15360) ∧
    (footerFromStr lfGrid = .ok ⟨List.replicate 15360 Color.black⟩) ∧
    (∀ (l : List Char) (f : Footer), footerFromStr l = .ok f →
      f.data = footerFilter l) := by
  have hlf : footerFromStr lfGrid = .ok ⟨List.replicate 15360 Color.black⟩ := by
    rw [footerFromStr, footerFilter_lfGrid]
    rw [if_neg (not_not_intro (List.length_replicate 15360 Color.black))]
  refine ⟨?_, hlf, ?_⟩
  · intro l
    rw [footerFromStr]
    by_cases hlen : (footerFilter l).length = 15360
    · rw [if_neg (not_not_intro hlen)]
      simp [hlen]
    · rw [if_pos hlen]
      simp [hlen]
  · intro l f hf
    rw [footerFromStr] at hf
    by_cases hlen : (footerFilter l).length = 15360
    · rw [if_neg (not_not_intro hlen)] at hf
      rw [← Except.ok.inj hf]
    · rw [if_pos hlen] at hf
      exact absurd hf (by simp)

/-- C8 (counterexample to the claim as stated): the CRLF-terminated grid
fails with a footer-length error of 15480, because CR is not stripped. -/
theorem footer_crlf_fails :
    footerFromStr crlfGrid = .error (.footerLength 15480) := by
  rw [footerFromStr, footerFilter_crlfGrid_length]
  rw [if_pos (by decide)]

/-! ### Canonical-tree decoding -/

/-- The canonical point tree decodes to its point. -/
theorem point3CanonTable_decode (p : Point3) :
    point3TryFrom (point3CanonTable p) = .ok p := rfl

/-- Mesh loop step: a `name` field holding a string. -/
theorem meshPairsLoop_name_ok (nm : List Char) (rest : List (List Char × LuaValue))
    (acc : Mesh) :
    meshPairsLoop (("name".data, .str nm) :: rest) acc =
      meshPairsLoop rest { acc with name := nm } := by
  rw [meshPairsLoop, if_pos rfl]
  rfl

/-- Mesh loop step: a `pos` field holding a decodable point table. -/
theorem meshPairsLoop_pos_ok (t : LuaTable) (rest : List (List Char × LuaValue))
    (acc : Mesh) (p : Point3) (hpt : point3TryFrom t = .ok p) :
    meshPairsLoop (("pos".data, t.val) :: rest) acc =
      meshPairsLoop rest { acc with position := p } := by
  rw [meshPairsLoop, if_neg (by decide), if_pos rfl]
  have h1 : (meshTableOf "pos".data t.val).bind point3TryFrom = .ok p := by
    rw [LuaTable.val, meshTableOf]
    show point3TryFrom ⟨t.seq, t.named⟩ = .ok p
    exact hpt
  rw [h1]

/-- Mesh loop step: a `rot` field holding a decodable point table. -/
theorem meshPairsLoop_rot_ok (t : LuaTable) (rest : List (List Char × LuaValue))
    (acc : Mesh) (p : Point3) (hpt : point3TryFrom t = .ok p) :
    meshPairsLoop (("rot".data, t.val) :: rest) acc =
      meshPairsLoop rest { acc with rotation := ⟨p⟩ } := by
  rw [meshPairsLoop, if_neg (by decide), if_neg (by decide), if_pos rfl]
  have h1 : (meshTableOf "rot".data t.val).bind point3TryFrom = .ok p := by
    rw [LuaTable.val, meshTableOf]
    show point3TryFrom ⟨t.seq, t.named⟩ = .ok p
    exact hpt
  rw [h1]

/-- Mesh loop step: a `v` field holding a vertex-table list. -/
theorem meshPairsLoop_v_ok (sq : List LuaValue) (rest : List (List Char × LuaValue))
    (acc : Mesh) (ps : List Point3) (hps : seqPoints sq = .ok ps) :
    meshPairsLoop (("v".data, .table sq []) :: rest) acc =
      meshPairsLoop rest { acc with vertices := acc.vertices ++ ps } := by
  rw [meshPairsLoop, if_neg (by decide), if_neg (by decide), if_neg (by decide),
    if_pos rfl]
  have h1 : (meshTableOf "rot".data (.table sq [])).bind
      (fun t => seqPoints t.seq) = .ok ps := by
    rw [meshTableOf]
    show seqPoints sq = .ok ps
    exact hps
  rw [h1]

/-- Mesh loop step: an `f` field holding a face-table list. -/
theorem meshPairsLoop_f_ok (sq : List LuaValue) (rest : List (List Char × LuaValue))
    (acc : Mesh) (fs : List Face) (hfs : seqFaces sq = .ok fs) :
    meshPairsLoop (("f".data, .table sq []) :: rest) acc =
      meshPairsLoop rest { acc with faces := acc.faces ++ fs } := by
  rw [meshPairsLoop, if_neg (by decide), if_neg (by decide), if_neg (by decide),
    if_neg (by decide), if_pos rfl]
  have h1 : (meshTableOf "rot".data (.table sq [])).bind
      (fun t => seqFaces t.seq) = .ok fs := by
    rw [meshTableOf]
    show seqFaces sq = .ok fs
    exact hfs
  rw [h1]

/-- A canonical vertex list decodes to its points. -/
theorem seqPoints_canon (ps : List Point3) :
    seqPoints (ps.map (fun p => (point3CanonTable p).val)) = .ok ps := by
  induction ps with
  | nil => rfl
  | cons p rest ih =>
    rw [List.map_cons]
    show (do
      let q ← point3TryFrom ⟨(point3CanonTable p).seq, (point3CanonTable p).named⟩
      let qs ← seqPoints (rest.map (fun p => (point3CanonTable p).val))
      return q :: qs) = _
    rw [show (⟨(point3CanonTable p).seq, (point3CanonTable p).named⟩ : LuaTable) =
      point3CanonTable p from rfl]
    rw [point3CanonTable_decode, ih]
    rfl

/-- The canonical face sequence decodes back to the 0-based indices. -/
theorem faceSeqIndices_canon (maps : List UVMap) :
    faceSeqIndices (maps.map (fun m =>
        LuaValue.int ((m.vertex_index + 1 : Nat) : Int))) =
      .ok (maps.map (·.vertex_index)) := by
  induction maps with
  | nil => rfl
  | cons m rest ih =>
    rw [List.map_cons, List.map_cons]
    show (match luaToUsize (.int ((m.vertex_index + 1 : Nat) : Int)) with
      | none => (Except.error PicoErr.lua : Except PicoErr (List Nat))
      | some j => (faceSeqIndices (rest.map (fun (m : UVMap) =>
          LuaValue.int ((m.vertex_index + 1 : Nat) : Int)))).map
            (fun l => (j - 1) :: l)) = _
    rw [show luaToUsize (.int ((m.vertex_index + 1 : Nat) : Int)) =
        some (m.vertex_index + 1) by
      rw [luaToUsize, if_pos (Int.natCast_nonneg _), Int.toNat_natCast]]
    rw [ih]
    rfl

/-- The flat canonical uv table is kept whole by the number filter. -/
theorem takeNums_canon (maps : List UVMap) :
    takeNums ((maps.map (fun m =>
        [LuaValue.num m.coords.u, LuaValue.num m.coords.v])).flatten) =
      (maps.map (fun m => [m.coords.u, m.coords.v])).flatten := by
  induction maps with
  | nil => rfl
  | cons m rest ih =>
    rw [List.map_cons, List.flatten_cons, List.map_cons, List.flatten_cons]
    simp [takeNums, luaToF64, ih]

/-- The flat canonical uv number list has twice as many entries as the
uv maps. -/
theorem takeNums_canon_length (maps : List UVMap) :
    ((maps.map (fun m => [m.coords.u, m.coords.v])).flatten).length =
      maps.length * 2 := by
  induction maps with
  | nil => rfl
  | cons m rest ih =>
    rw [List.map_cons, List.flatten_cons, List.length_append, ih]
    simp [Nat.succ_mul]
    omega

/-- Chunking the flat canonical uv numbers recovers the coordinates. -/
theorem chunkPairs_canon (maps : List UVMap) :
    chunkPairs ((maps.map (fun m => [m.coords.u, m.coords.v])).flatten) =
      maps.map (·.coords) := by
  induction maps with
  | nil => rfl
  | cons m rest ih =>
    rw [List.map_cons, List.flatten_cons, List.map_cons]
    simp [chunkPairs, ih]

/-- Writing the canonical coordinates back onto the index-only uv maps
restores the originals. -/
theorem applyUV_canon (maps : List UVMap) :
    applyUV (maps.map (fun m => ⟨m.vertex_index, ⟨0, 0⟩⟩))
      (maps.map (·.coords)) = maps := by
  induction maps with
  | nil => rfl
  | cons m rest ih =>
    rw [List.map_cons, List.map_cons, applyUV, ih]

/-- The i32 color code of a palette color survives the cast and converts
back to the same color (fails only for Invalid, whose code 0 reads back as
Black). -/
theorem colorRoundTrip (c : Color) (hc : c ≠ .invalid) :
    colorFromI32 (wrap32 (colorAsI32 c)) = c := by
  cases c
  · exact absurd rfl hc
  all_goals decide

/-- Stepping the face loop over an optional `dbl` flag field. -/
theorem facePairsLoop_optFlag_dbl (b : Bool) (rest : List (List Char × LuaValue))
    (acc : Face) :
    facePairsLoop ((if b then [("dbl".data, LuaValue.int 1)] else []) ++ rest) acc =
      facePairsLoop rest { acc with double_sided := acc.double_sided || b } := by
  cases b
  · rw [if_neg (by decide), List.nil_append, Bool.or_false]
  · rw [if_pos rfl, List.singleton_append, facePairsLoop_dbl, Bool.or_true]

/-- Stepping the face loop over an optional `noshade` flag field. -/
theorem facePairsLoop_optFlag_noshade (b : Bool) (rest : List (List Char × LuaValue))
    (acc : Face) :
    facePairsLoop ((if b then [("noshade".data, LuaValue.int 1)] else []) ++ rest) acc =
      facePairsLoop rest { acc with no_shading := acc.no_shading || b } := by
  cases b
  · rw [if_neg (by decide), List.nil_append, Bool.or_false]
  · rw [if_pos rfl, List.singleton_append, facePairsLoop_noshade, Bool.or_true]

/-- Stepping the face loop over an optional `notex` flag field. -/
theorem facePairsLoop_optFlag_notex (b : Bool) (rest : List (List Char × LuaValue))
    (acc : Face) :
    facePairsLoop ((if b then [("notex".data, LuaValue.int 1)] else []) ++ rest) acc =
      facePairsLoop rest { acc with no_texture := acc.no_texture || b } := by
  cases b
  · rw [if_neg (by decide), List.nil_append, Bool.or_false]
  · rw [if_pos rfl, List.singleton_append, facePairsLoop_notex, Bool.or_true]

/-- Stepping the face loop over an optional `prio` flag field. -/
theorem facePairsLoop_optFlag_prio (b : Bool) (rest : List (List Char × LuaValue))
    (acc : Face) :
    facePairsLoop ((if b then [("prio".data, LuaValue.int 1)] else []) ++ rest) acc =
      facePairsLoop rest { acc with render_priority := acc.render_priority || b } := by
  cases b
  · rw [if_neg (by decide), List.nil_append, Bool.or_false]
  · rw [if_pos rfl, List.singleton_append, facePairsLoop_prio, Bool.or_true]

/-- Stepping the face loop over the present flag fields of a face ors the
flags into the accumulator. -/
theorem facePairsLoop_flags (f : Face) (rest : List (List Char × LuaValue))
    (acc : Face) :
    facePairsLoop (faceFlagFields f ++ rest) acc =
      facePairsLoop rest { acc with
        double_sided := acc.double_sided || f.double_sided,
        no_shading := acc.no_shading || f.no_shading,
        no_texture := acc.no_texture || f.no_texture,
        render_priority := acc.render_priority || f.render_priority } := by
  rw [faceFlagFields, List.append_assoc, List.append_assoc, List.append_assoc,
    facePairsLoop_optFlag_dbl, facePairsLoop_optFlag_noshade,
    facePairsLoop_optFlag_notex, facePairsLoop_optFlag_prio]

/-- A canonical face tree decodes back to its face, provided the stored
color is not the Invalid sentinel. -/
theorem faceCanonTable_decode (f : Face) (hc : f.color ≠ .invalid) :
    faceTryFrom (faceCanonTable f) = .ok f := by
  rw [faceTryFrom]
  rw [show (faceCanonTable f).seq = f.uv_maps.map (fun (m : UVMap) =>
      LuaValue.int ((m.vertex_index + 1 : Nat) : Int)) from rfl]
  rw [faceSeqIndices_canon]
  show facePairsLoop (faceCanonTable f).named
    { double_sided := false, no_shading := false, render_priority := false,
      no_texture := false, color := .invalid,
      uv_maps := (f.uv_maps.map (·.vertex_index)).map (fun i => ⟨i, ⟨0, 0⟩⟩) } =
    .ok f
  rw [show ((f.uv_maps.map (·.vertex_index)).map
      (fun i => (⟨i, ⟨0, 0⟩⟩ : UVMap))) =
    f.uv_maps.map (fun m => ⟨m.vertex_index, ⟨0, 0⟩⟩) from by
      rw [List.map_map]; rfl]
  show facePairsLoop (("c".data, .int (colorAsI32 f.color)) ::
      (faceFlagFields f ++
        [("uv".data,
          .table ((f.uv_maps.map
            (fun m => [LuaValue.num m.coords.u, LuaValue.num m.coords.v])).flatten)
            [])])) _ = .ok f
  rw [facePairsLoop_c]
  rw [show faceColorOf (.int (colorAsI32 f.color)) = f.color from by
    rw [faceColorOf]; exact colorRoundTrip f.color hc]
  rw [facePairsLoop_flags]
  rw [facePairsLoop_uv_match _ _ _ _
    (by rw [takeNums_canon, takeNums_canon_length]
        show f.uv_maps.length * 2 =
          (f.uv_maps.map (fun (m : UVMap) =>
            (⟨m.vertex_index, ⟨0, 0⟩⟩ : UVMap))).length * 2
        rw [List.length_map])]
  show facePairsLoop []
    { double_sided := false || f.double_sided, no_shading := false || f.no_shading,
      render_priority := false || f.render_priority,
      no_texture := false || f.no_texture, color := f.color,
      uv_maps := applyUV (f.uv_maps.map (fun m => ⟨m.vertex_index, ⟨0, 0⟩⟩))
        (chunkPairs (takeNums ((f.uv_maps.map
          (fun m => [LuaValue.num m.coords.u, LuaValue.num m.coords.v])).flatten))) }
    = .ok f
  rw [takeNums_canon, chunkPairs_canon, applyUV_canon]
  show Except.ok
    { double_sided := false || f.double_sided, no_shading := false || f.no_shading,
      render_priority := false || f.render_priority,
      no_texture := false || f.no_texture, color := f.color,
      uv_maps := f.uv_maps } = .ok f
  rw [Bool.false_or, Bool.false_or, Bool.false_or, Bool.false_or]

/-- A canonical face list decodes to its faces. -/
theorem seqFaces_canon (fs : List Face) (h : ∀ f ∈ fs, f.color ≠ .invalid) :
    seqFaces (fs.map (fun fc => (faceCanonTable fc).val)) = .ok fs := by
  induction fs with
  | nil => rfl
  | cons f rest ih =>
    rw [List.map_cons]
    show (do
      let g ← faceTryFrom ⟨(faceCanonTable f).seq, (faceCanonTable f).named⟩
      let gs ← seqFaces (rest.map (fun fc => (faceCanonTable fc).val))
      return g :: gs) = _
    rw [show (⟨(faceCanonTable f).seq, (faceCanonTable f).named⟩ : LuaTable) =
      faceCanonTable f from rfl]
    rw [faceCanonTable_decode f (h f (by simp))]
    rw [ih (fun g hg => h g (by simp [hg]))]
    rfl

/-- A canonical mesh tree decodes back to its mesh, provided no face color
is the Invalid sentinel. -/
theorem meshCanonTable_decode (m : Mesh) (h : ∀ f ∈ m.faces, f.color ≠ .invalid) :
    meshTryFrom (meshCanonTable m) = .ok m := by
  rw [meshTryFrom]
  show meshPairsLoop (("name".data, .str m.name) ::
    [("pos".data, (point3CanonTable m.position).val),
     ("rot".data, (point3CanonTable m.rotation.p).val),
     ("v".data, .table (m.vertices.map (fun p => (point3CanonTable p).val)) []),
     ("f".data, .table (m.faces.map (fun fc => (faceCanonTable fc).val)) [])])
    ⟨[], ⟨0, 0, 0⟩, ⟨⟨0, 0, 0⟩⟩, [], []⟩ = .ok m
  rw [meshPairsLoop_name_ok]
  rw [meshPairsLoop_pos_ok (point3CanonTable m.position) _ _ m.position
    (point3CanonTable_decode m.position)]
  rw [meshPairsLoop_rot_ok (point3CanonTable m.rotation.p) _ _ m.rotation.p
    (point3CanonTable_decode m.rotation.p)]
  rw [meshPairsLoop_v_ok _ _ _ m.vertices (seqPoints_canon m.vertices)]
  rw [meshPairsLoop_f_ok _ _ _ m.faces (seqFaces_canon m.faces h)]
  rfl

/-- A canonical mesh list decodes to its meshes. -/
theorem seqMeshes_canon (ms : List Mesh)
    (h : ∀ m ∈ ms, ∀ f ∈ m.faces, f.color ≠ .invalid) :
    seqMeshes (ms.map (fun m => (meshCanonTable m).val)) = .ok ms := by
  induction ms with
  | nil => rfl
  | cons m rest ih =>
    rw [List.map_cons]
    show (do
      let n ← meshTryFrom ⟨(meshCanonTable m).seq, (meshCanonTable m).named⟩
      let ns ← seqMeshes (rest.map (fun m => (meshCanonTable m).val))
      return n :: ns) = _
    rw [show (⟨(meshCanonTable m).seq, (meshCanonTable m).named⟩ : LuaTable) =
      meshCanonTable m from rfl]
    rw [meshCanonTable_decode m (h m (by simp))]
    rw [ih (fun n hn => h n (by simp [hn]))]
    rfl

/-! ### Round-trip of the serialized pieces -/

set_option maxRecDepth 10000 in
/-- The decimal rendering of a byte is all digits and parses back to the
byte. -/
theorem u8_repr_facts : ∀ z : Fin 256,
    (Nat.repr z.val).data.all isDigitChar = true ∧
    parseU8 (Nat.repr z.val).data = some z := by
  decide

/-- The rendered color code of a palette color is all digits and parses
back to the code. -/
theorem color_intRepr_facts (c : Color) :
    (intRepr (colorAsI32 c)).all isDigitChar = true ∧
    parseI32 (intRepr (colorAsI32 c)) = some (colorAsI32 c) := by
  cases c <;> exact ⟨rfl, rfl⟩

/-- `From<i32>` inverts `as_i32` on every palette color. -/
theorem colorFromI32_colorAsI32 (c : Color) (hc : c ≠ .invalid) :
    colorFromI32 (colorAsI32 c) = c := by
  cases c
  · exact absurd rfl hc
  all_goals rfl

/-- A non-digit character does not occur in an all-digit string. -/
theorem not_mem_of_all_digit (l : List Char) (c : Char)
    (hall : l.all isDigitChar = true) (hc : isDigitChar c = false) : c ∉ l := by
  intro hmem
  have hdig := List.all_eq_true.1 hall c hmem
  rw [hc] at hdig
  exact absurd hdig (by simp)

/-- `splitOnceChar` decomposes its input at the separator. -/
theorem splitOnceChar_eq (sep : Char) (l a b : List Char)
    (hso : splitOnceChar sep l = some (a, b)) : l = a ++ sep :: b := by
  induction l generalizing a b with
  | nil => simp [splitOnceChar] at hso
  | cons c rest ih =>
    rw [splitOnceChar] at hso
    by_cases hc : c = sep
    · rw [if_pos hc] at hso
      obtain ⟨rfl, rfl⟩ : [] = a ∧ rest = b := by
        constructor <;> [exact congrArg Prod.fst (Option.some.inj hso);
          exact congrArg Prod.snd (Option.some.inj hso)]
      rw [hc]
      rfl
    · rw [if_neg hc] at hso
      cases hrec : splitOnceChar sep rest with
      | none => rw [hrec] at hso; exact absurd hso (by simp)
      | some ab =>
        cases ab with
        | mk a2 b2 =>
          rw [hrec] at hso
          obtain ⟨rfl, rfl⟩ : c :: a2 = a ∧ b2 = b := by
            constructor <;> [exact congrArg Prod.fst (Option.some.inj hso);
              exact congrArg Prod.snd (Option.some.inj hso)]
          rw [List.cons_append, ← ih a2 b2 hrec]

/-- Every character of every piece of a bounded split occurs in the
input. -/
theorem splitn_mem_subset (n : Nat) (sep : Char) (l : List Char) :
    ∀ p ∈ splitn n sep l, ∀ c ∈ p, c ∈ l := by
  induction n generalizing l with
  | zero => simp [splitn]
  | succ m ih =>
    cases m with
    | zero =>
      intro p hp
      rw [splitn] at hp
      simp at hp
      subst hp
      exact fun c hc => hc
    | succ k =>
      intro p hp c hc
      rw [splitn] at hp
      cases hso : splitOnceChar sep l with
      | none =>
        rw [hso] at hp
        simp at hp
        subst hp
        exact hc
      | some ab =>
        cases ab with
        | mk a b =>
          rw [hso] at hp
          have hl := splitOnceChar_eq sep l a b hso
          rcases List.mem_cons.1 hp with rfl | hp2
          · rw [hl]
            exact List.mem_append_left _ hc
          · rw [hl]
            exact List.mem_append_right _ (List.mem_cons_of_mem _ (ih b p hp2 c hc))

/-- Every character of the trimmed string occurs in the original. -/
theorem rustTrim_subset (l : List Char) : ∀ c ∈ rustTrim l, c ∈ l := by
  intro c hc
  rw [rustTrim, List.mem_reverse] at hc
  have h2 : c ∈ (l.dropWhile rustIsWs).reverse :=
    (List.dropWhile_sublist _).subset hc
  rw [List.mem_reverse] at h2
  exact (List.dropWhile_sublist _).subset h2

/-- What a successful header parse reveals: the stored identifier is the
magic string, and the stored name is a separator-free piece of the
input. -/
theorem headerFromStr_ok_inv (l : List Char) (h : Header)
    (hok : headerFromStr l = .ok h) :
    h.identifier = "picocad".data ∧ ';' ∉ h.name ∧ ∀ c ∈ h.name, c ∈ l := by
  rcases hsp : splitn 5 ';' (rustTrim l) with
    _ | ⟨f0, _ | ⟨f1, _ | ⟨f2, _ | ⟨f3, _ | ⟨f4, _ | ⟨r, rs⟩⟩⟩⟩⟩⟩ <;>
    simp only [headerFromStr, hsp] at hok <;>
    try exact Except.noConfusion hok
  by_cases hid : f0 ≠ "picocad".data
  · rw [if_pos hid] at hok
    exact absurd hok (by simp)
  · rw [if_neg hid] at hok
    cases hz : parseU8 f2 with
    | none => simp only [hz] at hok; exact Except.noConfusion hok
    | some z =>
      simp only [hz] at hok
      cases hb : parseI32 f3 with
      | none => simp only [hb] at hok; exact Except.noConfusion hok
      | some bg =>
        simp only [hb] at hok
        cases ha : parseI32 f4 with
        | none => simp only [ha] at hok; exact Except.noConfusion hok
        | some al =>
          simp only [ha] at hok
          have hres := Except.ok.inj hok
          subst hres
          refine ⟨not_not.1 hid, ?_, ?_⟩
          · exact splitn_dropLast_no_sep 5 ';' (rustTrim l) f1 (by rw [hsp]; simp)
          · intro c hc
            exact rustTrim_subset l c
              (splitn_mem_subset 5 ';' (rustTrim l) f1 (by rw [hsp]; simp) c hc)

/-- What a successful footer parse reveals: the pixel buffer is the
filtered input and counts exactly 15360 pixels. -/
theorem footerFromStr_ok_data (l : List Char) (f : Footer)
    (hok : footerFromStr l = .ok f) :
    f.data = footerFilter l ∧ f.data.length = 15360 := by
  rw [footerFromStr] at hok
  by_cases hlen : (footerFilter l).length = 15360
  · rw [if_neg (not_not_intro hlen)] at hok
    have hres := Except.ok.inj hok
    subst hres
    exact ⟨rfl, hlen⟩
  · rw [if_pos hlen] at hok
    exact absurd hok (by simp)

/-- What a successful model separation reveals: the header piece precedes
the first newline. -/
theorem seperateModel_ok_inv (l hs ms fs : List Char)
    (hok : seperateModel l = .ok (hs, ms, fs)) : '\n' ∉ hs := by
  cases hso : splitOnceChar '\n' l with
  | none => simp only [seperateModel, hso] at hok; exact Except.noConfusion hok
  | some ab =>
    cases ab with
    | mk a rest =>
      simp only [seperateModel, hso] at hok
      cases hrs : rsplitOnceChar '%' rest with
      | none => simp only [hrs] at hok; exact Except.noConfusion hok
      | some mf =>
        cases mf with
        | mk m f =>
          simp only [hrs] at hok
          obtain ⟨rfl, -, -⟩ : a = hs ∧ m = ms ∧ f = fs := by
            have h1 := Except.ok.inj hok
            exact ⟨congrArg Prod.fst h1,
              congrArg Prod.fst (congrArg Prod.snd h1),
              congrArg Prod.snd (congrArg Prod.snd h1)⟩
          exact splitOnceChar_no_sep '\n' l _ rest hso

/-- The header tail in fully right-associated form. -/
theorem headerTail_decomp (h : Header) :
    headerTail h = h.name ++ ';' :: ((Nat.repr h.zoom.val).data ++ ';' ::
      (intRepr (colorAsI32 h.background) ++ ';' ::
        intRepr (colorAsI32 h.alpha))) := by
  rw [headerTail]
  simp only [List.append_assoc]
  rfl

/-- The header tail splits into the four serialized fields. -/
theorem headerTail_splitn (h : Header) (hname : ';' ∉ h.name) :
    splitn 4 ';' (headerTail h) =
      [h.name, (Nat.repr h.zoom.val).data,
       intRepr (colorAsI32 h.background), intRepr (colorAsI32 h.alpha)] := by
  rw [headerTail_decomp]
  rw [splitn_cons 2 ';' _ _ hname]
  rw [splitn_cons 1 ';' _ _
    (not_mem_of_all_digit _ _ (u8_repr_facts h.zoom).1 (by decide))]
  rw [splitn_cons 0 ';' _ _
    (not_mem_of_all_digit _ _ (color_intRepr_facts h.background).1 (by decide))]
  rfl

/-- Re-parsing a serialized header recovers it, provided the stored
identifier is the magic string, the name holds no separator and the two
colors are not the Invalid sentinel. -/
theorem headerChars_roundtrip (h : Header) (hid : h.identifier = "picocad".data)
    (hname : ';' ∉ h.name) (hbg : h.background ≠ .invalid)
    (hal : h.alpha ≠ .invalid) :
    headerFromStr (headerChars h) = .ok h := by
  have hfields : splitn 5 ';' (rustTrim (headerChars h)) =
      ["picocad".data, h.name, (Nat.repr h.zoom.val).data,
       intRepr (colorAsI32 h.background), intRepr (colorAsI32 h.alpha)] := by
    rw [headerChars_splitn, headerTail_splitn h hname]
  simp only [headerFromStr, hfields]
  rw [if_neg (by simp)]
  simp only [(u8_repr_facts h.zoom).2, (color_intRepr_facts h.background).2,
    (color_intRepr_facts h.alpha).2]
  rw [colorFromI32_colorAsI32 _ hbg, colorFromI32_colorAsI32 _ hal]
  rw [show ('p' :: 'i' :: 'c' :: 'o' :: 'c' :: 'a' :: 'd' :: ([] : List Char)) =
    "picocad".data from rfl]
  rw [← hid]

/-- Chunking loses no characters. -/
theorem chunkListAux_flatten (w fuel : Nat) (l : List Char) :
    (chunkListAux w fuel l).flatten = l := by
  induction fuel generalizing l with
  | zero => rw [chunkListAux]; simp
  | succ k ih =>
    rw [chunkListAux]
    by_cases hl : l.length ≤ w
    · rw [if_pos hl]; simp
    · rw [if_neg hl, List.flatten_cons, ih]
      exact List.take_append_drop w l

/-- The chunk count is bounded by the fuel when the input fits. -/
theorem chunkListAux_length_le (w k : Nat) (l : List Char)
    (hl : l.length ≤ w * (k + 1)) :
    (chunkListAux w (k + 1) l).length ≤ k + 1 := by
  induction k generalizing l with
  | zero =>
    rw [chunkListAux]
    rw [Nat.mul_one] at hl
    rw [if_pos hl]
    exact Nat.le_refl 1
  | succ m ih =>
    rw [chunkListAux]
    by_cases hlen : l.length ≤ w
    · rw [if_pos hlen]
      simp
    · rw [if_neg hlen]
      rw [List.length_cons]
      have hdrop : (l.drop w).length ≤ w * (m + 1) := by
        rw [List.length_drop]
        have hmul : w * (m + 1 + 1) = w * (m + 1) + w := by ring
        omega
      have := ih (l.drop w) hdrop
      omega

/-- Every chunk is made of input characters. -/
theorem chunkListAux_mem (w fuel : Nat) (l : List Char) :
    ∀ p ∈ chunkListAux w fuel l, ∀ c ∈ p, c ∈ l := by
  induction fuel generalizing l with
  | zero =>
    intro p hp c hc
    rw [chunkListAux] at hp
    simp at hp
    subst hp
    exact hc
  | succ k ih =>
    intro p hp c hc
    rw [chunkListAux] at hp
    by_cases hl : l.length ≤ w
    · rw [if_pos hl] at hp
      simp at hp
      subst hp
      exact hc
    · rw [if_neg hl] at hp
      rcases List.mem_cons.1 hp with rfl | hp2
      · exact List.take_subset w l hc
      · exact List.drop_subset w l (ih (l.drop w) p hp2 c hc)

/-- The footer filter drops the chunk-terminating newlines. -/
theorem footerFilter_chunks (chunks : List (List Char)) :
    footerFilter ((chunks.map (fun c => c ++ ['\n'])).flatten) =
      footerFilter chunks.flatten := by
  induction chunks with
  | nil => rfl
  | cons c rest ih =>
    rw [List.map_cons, List.flatten_cons, List.flatten_cons,
      footerFilter_append, footerFilter_append, ih,
      show footerFilter ['\n'] = [] from rfl, List.append_nil,
      ← footerFilter_append]

/-- No pixel character is a separator. -/
theorem colorAsChar_not_ws (c : Color) :
    ¬(colorAsChar c = ' ' ∨ colorAsChar c = '\n') := by
  cases c <;> decide

/-- `From<char>` inverts `as_char` on every non-Invalid color. -/
theorem colorFromChar_asChar (c : Color) (hc : c ≠ .invalid) :
    colorFromChar (colorAsChar c) = c := by
  cases c
  · exact absurd rfl hc
  all_goals rfl

/-- The footer filter inverts the pixel rendering of an Invalid-free
buffer. -/
theorem footerFilter_map_asChar (cols : List Color)
    (h : ∀ c ∈ cols, c ≠ .invalid) :
    footerFilter (cols.map colorAsChar) = cols := by
  induction cols with
  | nil => rfl
  | cons c rest ih =>
    simp only [List.map_cons, footerFilter, List.filterMap_cons,
      if_neg (colorAsChar_not_ws c)]
    have hrest := ih (fun x hx => h x (List.mem_cons_of_mem c hx))
    rw [footerFilter] at hrest
    rw [hrest, colorFromChar_asChar c (h c (List.mem_cons_self c rest))]

/-- Re-parsing a serialized footer recovers it, provided the buffer holds
exactly 15360 pixels none of which is the Invalid sentinel. -/
theorem footerChars_roundtrip (f : Footer) (hlen : f.data.length = 15360)
    (hinv : ∀ c ∈ f.data, c ≠ .invalid) :
    footerFromStr (footerChars f) = .ok f := by
  have hfilter : footerFilter (footerChars f) = f.data := by
    rw [footerChars]
    have htake : (chunkListAux 128 120 (f.data.map colorAsChar)).take 120 =
        chunkListAux 128 120 (f.data.map colorAsChar) :=
      List.take_of_length_le (chunkListAux_length_le 128 119 _
        (by rw [List.length_map, hlen]))
    rw [htake, footerFilter_chunks, chunkListAux_flatten,
      footerFilter_map_asChar _ hinv]
  rw [footerFromStr, hfilter, if_neg (not_not_intro hlen)]

/-- Splitting at the last occurrence of an explicit separator, when the
tail piece is separator-free. -/
theorem rsplitOnceChar_append (sep : Char) (a b : List Char) (hb : sep ∉ b) :
    rsplitOnceChar sep (a ++ sep :: b) = some (a, b) := by
  have hrev : (a ++ sep :: b).reverse = b.reverse ++ sep :: a.reverse := by
    rw [List.reverse_append, List.reverse_cons, List.append_assoc]
    rfl
  rw [rsplitOnceChar, hrev, splitOnceChar_append sep b.reverse a.reverse
    (fun hmem => hb (List.mem_reverse.1 hmem))]
  show some (a.reverse.reverse, b.reverse.reverse) = some (a, b)
  rw [List.reverse_reverse, List.reverse_reverse]

/-- The serialized header line holds no newline when the name holds
none. -/
theorem headerChars_no_lf (h : Header) (hname : '\n' ∉ h.name) :
    '\n' ∉ headerChars h := by
  rw [headerChars]
  intro hmem
  simp only [List.append_assoc, List.mem_append] at hmem
  rcases hmem with h1 | h2 | h3 | h4 | h5 | h6 | h7
  · exact absurd h1 (by decide)
  · exact hname h2
  · exact absurd h3 (by decide)
  · exact not_mem_of_all_digit _ _ (u8_repr_facts h.zoom).1 (by decide) h4
  · exact absurd h5 (by decide)
  · exact not_mem_of_all_digit _ _ (color_intRepr_facts h.background).1
      (by decide) h6
  · rcases h7 with h8 | h9
    · exact absurd h8 (by decide)
    · exact not_mem_of_all_digit _ _ (color_intRepr_facts h.alpha).1
        (by decide) h9

/-- Every character of the serialized footer is a newline or a pixel
character. -/
theorem footerChars_mem (f : Footer) (c : Char) (hc : c ∈ footerChars f) :
    c = '\n' ∨ ∃ col ∈ f.data, c = colorAsChar col := by
  rw [footerChars] at hc
  rw [List.mem_flatten] at hc
  obtain ⟨piece, hpiece, hcp⟩ := hc
  rw [List.mem_map] at hpiece
  obtain ⟨chunk, hchunk, rfl⟩ := hpiece
  rw [List.mem_append] at hcp
  rcases hcp with hcc | hnl
  · right
    have hcl : c ∈ f.data.map colorAsChar :=
      chunkListAux_mem 128 120 _ chunk (List.take_subset _ _ hchunk) c hcc
    rw [List.mem_map] at hcl
    obtain ⟨col, hcol, rfl⟩ := hcl
    exact ⟨col, hcol, rfl⟩
  · left
    simpa using hnl

/-- The serialized footer holds no percent sign. -/
theorem footerChars_no_percent (f : Footer) : '%' ∉ footerChars f := by
  intro hmem
  rcases footerChars_mem f '%' hmem with h | ⟨col, -, h⟩
  · exact absurd h (by decide)
  · revert h
    cases col <;> decide

/-- `seperate_model` cuts a serialized model back into its serialized
header, its mesh section, and a newline followed by its serialized
footer. -/
theorem seperateModel_modelChars (d : Model) (hname : '\n' ∉ d.header.name) :
    seperateModel (modelChars d) = .ok
      (headerChars d.header, meshesSection d, '\n' :: footerChars d.footer) := by
  have hdecomp : modelChars d = headerChars d.header ++ '\n' ::
      (meshesSection d ++ '%' :: ('\n' :: footerChars d.footer)) := by
    rw [modelChars, meshesSection]
    simp only [List.append_assoc]
    rfl
  have hpercent : '%' ∉ '\n' :: footerChars d.footer := by
    intro hmem
    rcases List.mem_cons.1 hmem with h | h
    · exact absurd h (by decide)
    · exact footerChars_no_percent d.footer h
  rw [hdecomp, seperateModel,
    splitOnceChar_append '\n' (headerChars d.header) _
      (headerChars_no_lf d.header hname)]
  show (match rsplitOnceChar '%'
      (meshesSection d ++ '%' :: ('\n' :: footerChars d.footer)) with
    | none => (Except.error (.split
        "seperate meshes from footer with \x27%\x27".data) :
          Except PicoErr (List Char × List Char × List Char))
    | some (meshes, footer) =>
        .ok (headerChars d.header, meshes, footer)) = _
  rw [rsplitOnceChar_append '%' (meshesSection d) _ hpercent]

/-- A successful bind unfolds. -/
theorem except_bind_ok_rw {α β : Type} (a : α) (f : α → Except PicoErr β) :
    Bind.bind (Except.ok a : Except PicoErr α) f = f a := rfl

/-- Every character of the LF grid is a zero or a newline. -/
theorem lfGrid_mem (c : Char) (hc : c ∈ lfGrid) : c = '0' ∨ c = '\n' := by
  rw [lfGrid, List.mem_flatten] at hc
  obtain ⟨piece, hpiece, hcp⟩ := hc
  rw [List.mem_replicate] at hpiece
  rw [hpiece.2] at hcp
  rcases List.mem_append.1 hcp with h | h
  · exact Or.inl (List.eq_of_mem_replicate h)
  · right
    simpa using h

/-- The LF grid with its leading newline holds no percent sign. -/
theorem percent_not_lfGrid : '%' ∉ ('\n' :: lfGrid : List Char) := by
  intro hmem
  rcases List.mem_cons.1 hmem with h | h
  · exact absurd h (by decide)
  · rcases lfGrid_mem '%' h with h2 | h2 <;> exact absurd h2 (by decide)

/-- The newline-led LF grid parses to the all-black footer. -/
theorem footerFromStr_lf_lfGrid :
    footerFromStr ('\n' :: lfGrid) = .ok ⟨List.replicate 15360 Color.black⟩ := by
  have hfil : footerFilter ('\n' :: lfGrid) = List.replicate 15360 Color.black := by
    rw [show footerFilter ('\n' :: lfGrid) = footerFilter lfGrid from rfl,
      footerFilter_lfGrid]
  rw [footerFromStr, hfil,
    if_neg (not_not_intro (List.length_replicate 15360 Color.black))]

/-- The separation of a document with separator-free header line and
percent-free footer tail. -/
theorem seperate_generic (headerLine g : List Char) (hno : '\n' ∉ headerLine)
    (hg : '%' ∉ ('\n' :: g : List Char)) :
    seperateModel (headerLine ++ '\n' :: ("\x7b\n\x7d%".data ++ '\n' :: g)) =
      .ok (headerLine, "\x7b\n\x7d".data, '\n' :: g) := by
  have hrsp : rsplitOnceChar '%' ("\x7b\n\x7d%".data ++ '\n' :: g) =
      some ("\x7b\n\x7d".data, '\n' :: g) := by
    rw [show ("\x7b\n\x7d%".data ++ '\n' :: g : List Char) =
      "\x7b\n\x7d".data ++ '%' :: ('\n' :: g) from rfl]
    exact rsplitOnceChar_append '%' _ _ hg
  rw [seperateModel]
  rw [splitOnceChar_append '\n' headerLine _ hno]
  show (match rsplitOnceChar '%' ("\x7b\n\x7d%".data ++ '\n' :: g) with
    | none => (Except.error (.split
        "seperate meshes from footer with \x27%\x27".data) :
          Except PicoErr (List Char × List Char × List Char))
    | some (meshes, footer) =>
        .ok (headerLine, meshes, footer)) = _
  rw [hrsp]

/-- Parsing a document made of one header line, an empty mesh section and
a footer tail. -/
theorem modelFromStr_generic (headerLine g : List Char) (h : Header) (f : Footer)
    (hno : '\n' ∉ headerLine) (hg : '%' ∉ ('\n' :: g : List Char))
    (hh : headerFromStr headerLine = .ok h)
    (hf : footerFromStr ('\n' :: g) = .ok f) :
    modelFromStr evalEmptyTables
        (headerLine ++ '\n' :: ("\x7b\n\x7d%".data ++ '\n' :: g)) =
      .ok ⟨h, [], f⟩ := by
  rw [modelFromStr, seperate_generic headerLine g hno hg, except_bind_ok_rw]
  show Bind.bind (headerFromStr headerLine) _ = _
  rw [hh, except_bind_ok_rw]
  show Bind.bind (footerFromStr ('\n' :: g)) _ = _
  rw [hf, except_bind_ok_rw]
  show Bind.bind (evalEmptyTables "\x7b\n\x7d".data) _ = _
  rw [show evalEmptyTables "\x7b\n\x7d".data = .ok ⟨[], []⟩ from rfl,
    except_bind_ok_rw]
  rfl

/-- Parsing a document made of one header line, an empty mesh section and
the LF grid. -/
theorem modelFromStr_concrete (headerLine : List Char) (h : Header)
    (hno : '\n' ∉ headerLine) (hh : headerFromStr headerLine = .ok h) :
    modelFromStr evalEmptyTables
        (headerLine ++ '\n' :: ("\x7b\n\x7d%".data ++ '\n' :: lfGrid)) =
      .ok ⟨h, [], ⟨List.replicate 15360 Color.black⟩⟩ :=
  modelFromStr_generic headerLine lfGrid h ⟨List.replicate 15360 Color.black⟩
    hno percent_not_lfGrid hh footerFromStr_lf_lfGrid

/-- Inversion of a successful `Except` bind. -/
theorem except_bind_ok {α β : Type} (x : Except PicoErr α) (f : α → Except PicoErr β)
    (b : β) (h : Bind.bind x f = .ok b) : ∃ a, x = .ok a ∧ f a = .ok b := by
  cases x with
  | error e => exact absurd h (by simp [Bind.bind, Except.bind])
  | ok a => exact ⟨a, rfl, by simpa [Bind.bind, Except.bind] using h⟩

/-- What a successful model parse reveals: the document separates, the
header piece (before the first newline) parses to the stored header, and
the footer piece parses to the stored footer. -/
theorem modelFromStr_ok_inv (eval : List Char → Except PicoErr LuaTable)
    (l : List Char) (d : Model) (hok : modelFromStr eval l = .ok d) :
    ∃ hs ms fs, seperateModel l = .ok (hs, ms, fs) ∧
      headerFromStr hs = .ok d.header ∧ footerFromStr fs = .ok d.footer ∧
      '\n' ∉ hs := by
  rw [modelFromStr] at hok
  obtain ⟨t, hsep, hok⟩ := except_bind_ok _ _ _ hok
  obtain ⟨hs, ms, fs⟩ := t
  obtain ⟨header, hh, hok⟩ := except_bind_ok _ _ _ hok
  obtain ⟨footer, hf, hok⟩ := except_bind_ok _ _ _ hok
  obtain ⟨t2, hev, hok⟩ := except_bind_ok _ _ _ hok
  obtain ⟨meshes, hsm, hok⟩ := except_bind_ok _ _ _ hok
  have hd : (⟨header, meshes, footer⟩ : Model) = d := Except.ok.inj hok
  subst hd
  exact ⟨hs, ms, fs, hsep, hh, hf, seperateModel_ok_inv l hs ms fs hsep⟩

/-- C1 (amended): for a model parsed from some document whose stored colors
avoid the Invalid sentinel, serializing with Display and re-parsing - with
a table evaluator that returns the canonical value tree of the emitted mesh
section - succeeds and returns the same model field-for-field.  (The claim
as stated, without the Invalid-free proviso, is refuted by the
counterexample: a parsed background code 99 is stored as Invalid but
re-serializes as 0.) -/
theorem model_roundtrip (eval eval2 : List Char → Except PicoErr LuaTable)
    (doc : List Char) (d : Model)
    (hp : modelFromStr eval doc = .ok d)
    (hinv : modelNoInvalid d)
    (he : eval2 (meshesSection d) = .ok (modelCanonTable d)) :
    modelFromStr eval2 (modelChars d) = .ok d := by
  obtain ⟨hs, ms, fs, hsep, hh, hf, hlf⟩ := modelFromStr_ok_inv eval doc d hp
  obtain ⟨hid, hsemi, hsub⟩ := headerFromStr_ok_inv hs d.header hh
  obtain ⟨-, hlen⟩ := footerFromStr_ok_data fs d.footer hf
  obtain ⟨hbg, hal, hfaces, hfoot⟩ := hinv
  have hnameLf : '\n' ∉ d.header.name := fun hmem => hlf (hsub '\n' hmem)
  have hsepOk := seperateModel_modelChars d hnameLf
  have hhdr := headerChars_roundtrip d.header hid hsemi hbg hal
  have hftr : footerFromStr ('\n' :: footerChars d.footer) = .ok d.footer := by
    have h1 := footerChars_roundtrip d.footer hlen hfoot
    have hdrop : footerFilter ('\n' :: footerChars d.footer) =
        footerFilter (footerChars d.footer) := rfl
    rw [footerFromStr, hdrop, ← footerFromStr]
    exact h1
  rw [modelFromStr, hsepOk, except_bind_ok_rw]
  show Bind.bind (headerFromStr (headerChars d.header)) _ = _
  rw [hhdr, except_bind_ok_rw]
  show Bind.bind (footerFromStr ('\n' :: footerChars d.footer)) _ = _
  rw [hftr, except_bind_ok_rw]
  show Bind.bind (eval2 (meshesSection d)) _ = _
  rw [he, except_bind_ok_rw]
  show Bind.bind
    (seqMeshes (d.meshes.map (fun m => (meshCanonTable m).val))) _ = _
  rw [seqMeshes_canon d.meshes hfaces, except_bind_ok_rw]
  rfl

/-- C1 (counterexample to the claim as stated): the document with
background code 99 parses successfully to a model storing the Invalid
sentinel, but no evaluator makes re-parsing its serialization return that
model - the serialized background is 0, which re-parses as Black. -/
theorem model_roundtrip_counterexample :
    modelFromStr evalEmptyTables docB = .ok modelB ∧
    ∀ eval : List Char → Except PicoErr LuaTable,
      modelFromStr eval (modelChars modelB) ≠ .ok modelB := by
  constructor
  · exact modelFromStr_concrete "picocad;unnamed;16;99;0".data headerB
      (by decide) (by decide)
  · intro eval hok
    obtain ⟨hs, ms, fs, hsep, hh, -, -⟩ := modelFromStr_ok_inv eval _ _ hok
    have hsep2 := (seperateModel_modelChars modelB (by decide)).symm.trans hsep
    have hhs : headerChars modelB.header = hs :=
      congrArg Prod.fst (Except.ok.inj hsep2)
    rw [← hhs] at hh
    have hc : headerFromStr (headerChars modelB.header) =
        .ok ⟨"picocad".data, 16, "unnamed".data, .black, .black⟩ := by decide
    have heq := Except.ok.inj (hc.symm.trans hh)
    exact absurd (congrArg Header.background heq) (by decide)

/-- Witness for C1 at the empty-mesh document: all three hypotheses hold
concretely and the round trip returns the parsed model. -/
theorem model_roundtrip_witness :
    modelFromStr evalEmptyTables docW = .ok modelW ∧
    modelNoInvalid modelW ∧
    evalEmptyTables (meshesSection modelW) = .ok (modelCanonTable modelW) ∧
    modelFromStr evalEmptyTables (modelChars modelW) = .ok modelW := by
  have h1 : modelFromStr evalEmptyTables docW = .ok modelW :=
    modelFromStr_concrete "picocad;unnamed;16;1;0".data modelW.header
      (by decide) (by decide)
  have h2 : modelNoInvalid modelW := by
    refine ⟨by decide, by decide,
      fun m hm => absurd hm (List.not_mem_nil m), fun c hc => ?_⟩
    rw [List.eq_of_mem_replicate hc]
    decide
  have h3 : evalEmptyTables (meshesSection modelW) =
      .ok (modelCanonTable modelW) := rfl
  exact ⟨h1, h2, h3,
    model_roundtrip evalEmptyTables evalEmptyTables docW modelW h1 h2 h3⟩

end Picocad
